import Mathlib

/-!
Verification development for the interactive bash session engine of the
bash-mcp repository (marker protocol, per-command output parser, session
manager, input-collection race, idle eviction).

Strings from the TypeScript/bash sources are modelled as `List Char`.
JavaScript regular-expression matching is embedded by hand for the concrete
patterns the code compiles; every definition carries a comment pointing to
the source construct it translates.
-/

namespace BashMcp

/-- Convert a string literal to the character-list representation used
throughout this development. -/
def strL (s : String) : List Char := s.toList

/-- If `a` is a prefix of `s`, return the remainder of `s` after `a`.
This is the primitive used to embed literal-text matching of the
JavaScript regexes and of `String.prototype.indexOf`. -/
def pfxRest? : List Char → List Char → Option (List Char)
  | [], s => some s
  | _ :: _, [] => none
  | a :: as, b :: bs => if a = b then pfxRest? as bs else none

/-- Boolean prefix test derived from `pfxRest?`. -/
def isPfx (a b : List Char) : Bool := (pfxRest? a b).isSome

/-- Boolean substring test: some suffix of `hay` starts with `needle`. -/
def containsL : List Char → List Char → Bool
  | needle, [] => isPfx needle []
  | needle, c :: cs => isPfx needle (c :: cs) || containsL needle cs

/-- Character class `[0-9.]` of the marker-timestamp regex group. -/
def isTsChar (c : Char) : Bool := c.isDigit || c = '.'

/-- Whitespace characters of JavaScript `\s` / `trim()` (ASCII subset;
the Unicode space characters of the full JS class do not occur in any
input considered here). -/
def jsWsChar (c : Char) : Bool :=
  c = ' ' || c = '\t' || c = '\n' || c = '\r' || c = '\x0b' || c = '\x0c'

/-- Model of `String.prototype.trimEnd`. -/
def trimEndJs (s : List Char) : List Char := (s.reverse.dropWhile jsWsChar).reverse

/-- Model of `String.prototype.trimStart`. -/
def trimStartJs (s : List Char) : List Char := s.dropWhile jsWsChar

/-- Model of `String.prototype.trim` (used by `cleanOutput` and
`isInteractiveCommand`). -/
def trimJs (s : List Char) : List Char := trimEndJs (trimStartJs s)

/-- Decimal digit characters rendered by the model (used to relate the
numeric fields of markers to the naturals they denote). -/
def digitChar (n : Nat) : Char :=
  match n with
  | 0 => '0' | 1 => '1' | 2 => '2' | 3 => '3' | 4 => '4'
  | 5 => '5' | 6 => '6' | 7 => '7' | 8 => '8' | _ => '9'

/-- Fuel-driven decimal rendering (structural recursion so that concrete
instances reduce inside the kernel). -/
def natToDecAux : Nat → Nat → List Char
  | 0, _ => []
  | fuel + 1, n =>
    if n < 10 then [digitChar n]
    else natToDecAux fuel (n / 10) ++ [digitChar (n % 10)]

/-- Decimal rendering of a natural number, as `echo`/`date` print the
numeric marker fields. -/
def natToDec (n : Nat) : List Char := natToDecAux (n + 1) n

/-- Model of JavaScript `parseInt(ds, 10)` on a string of decimal digits
(the only shape the `(\d+)` exit-code group can produce; `parseInt` is
exact on this range of inputs, and never throws, so the `catch` branch of
`processEnd` is dead code). -/
def decToNat (ds : List Char) : Nat := ds.foldl (fun a c => a * 10 + (c.toNat - 48)) 0

/-- Model of `new Date(parseFloat(ts) * 1000).getTime()` for a timestamp
field `ts` matched by `([0-9.]+)`: the integer part contributes seconds,
the first three fractional digits contribute milliseconds (ECMAScript
`Date` truncates the time value).  Exact for the all-digit timestamps used
in the theorems below; strings with no digit at all (where `parseFloat`
yields `NaN` and the `Date` is invalid) are outside the modelled range. -/
def parseTsMs (ts : List Char) : Int :=
  let ip := ts.takeWhile Char.isDigit
  let rest := ts.dropWhile Char.isDigit
  let frac : Nat :=
    match rest with
    | '.' :: fs => decToNat ((fs.takeWhile Char.isDigit ++ strL ("000")).take 3)
    | _ => 0
  (decToNat ip * 1000 + frac : Int)

/-- Literal text of the START sentinel, `MCP_CMD_START|` (wire format). -/
def litStart : List Char := strL ("MCP_CMD_START|")

/-- Literal text of the END sentinel, `MCP_CMD_END|` (wire format). -/
def litEnd : List Char := strL ("MCP_CMD_END|")

/-- Literal prompt sentinel `MCP_PROMPT|` of the injected `PS1`. -/
def litPrompt : List Char := strL ("MCP_PROMPT|")

/-- Match of the compiled regex `MCP_CMD_START\|([0-9.]+)\|<id>` at the
head of `s`, returning the timestamp group.  Because `|` is not in the
class `[0-9.]`, the greedy group of the JavaScript regex can only succeed
with the maximal run of `[0-9.]` characters (shorter backtracking
candidates abut a `[0-9.]` character where the pattern requires `|`), so
taking the maximal run is exact.  The interpolated `<id>` contains no
regex metacharacters for the ids the parser generates. -/
def matchStartAt (id s : List Char) : Option (List Char) :=
  match pfxRest? litStart s with
  | none => none
  | some r1 =>
    let ts := r1.takeWhile isTsChar
    let r2 := r1.dropWhile isTsChar
    if ts = [] then none
    else
      match pfxRest? ('|' :: id) r2 with
      | none => none
      | some _ => some ts

/-- Match of the compiled regex `MCP_CMD_END\|([0-9.]+)\|<id>\|(\d+)` at
the head of `s`, returning the timestamp and exit-code groups (same
greedy-run argument as `matchStartAt`; the final `(\d+)` has nothing after
it, so it is the maximal nonempty digit run). -/
def matchEndAt (id s : List Char) : Option (List Char × List Char) :=
  match pfxRest? litEnd s with
  | none => none
  | some r1 =>
    let ts := r1.takeWhile isTsChar
    let r2 := r1.dropWhile isTsChar
    if ts = [] then none
    else
      match pfxRest? ('|' :: (id ++ ['|'])) r2 with
      | none => none
      | some r3 =>
        let code := r3.takeWhile Char.isDigit
        if code = [] then none else some (ts, code)

/-- Leftmost match of the start pattern, with its position.  This combines
`buffer.match(startPattern)` with `buffer.indexOf(startMatch[0])`: the
first occurrence of the matched text is the leftmost match position, since
any earlier occurrence of that very text would itself be an earlier
match. -/
def findStartAux (id : List Char) : List Char → Option (Nat × List Char)
  | [] => none
  | c :: cs =>
    match matchStartAt id (c :: cs) with
    | some ts => some (0, ts)
    | none => (findStartAux id cs).map (fun r => (r.1 + 1, r.2))

/-- Leftmost match of the end pattern, with its position (combines
`buffer.match(endPattern)` with `buffer.indexOf(endMatch[0])`, justified
as for `findStartAux`). -/
def findEndAux (id : List Char) : List Char → Option (Nat × List Char × List Char)
  | [] => none
  | c :: cs =>
    match matchEndAt id (c :: cs) with
    | some g => some (0, g.1, g.2)
    | none => (findEndAux id cs).map (fun r => (r.1 + 1, r.2.1, r.2.2))

/-- Match of one occurrence of the global replace pattern
`MCP_PROMPT\|\d+\|#\s*` at the head of `s`, returning the remainder after
the (greedily consumed) trailing whitespace. -/
def matchPromptAt (s : List Char) : Option (List Char) :=
  match pfxRest? litPrompt s with
  | none => none
  | some r1 =>
    let ds := r1.takeWhile Char.isDigit
    let r2 := r1.dropWhile Char.isDigit
    if ds = [] then none
    else
      match pfxRest? (strL ("|#")) r2 with
      | none => none
      | some r3 => some (r3.dropWhile jsWsChar)

/-- Fuel-driven scan implementing
`output.replace(/MCP_PROMPT\|\d+\|#\s*/g, '')`: delete every
non-overlapping leftmost occurrence, continuing after each match. -/
def stripPromptsAux : Nat → List Char → List Char
  | 0, s => s
  | _ + 1, [] => []
  | fuel + 1, c :: cs =>
    match matchPromptAt (c :: cs) with
    | some rest => stripPromptsAux fuel rest
    | none => c :: stripPromptsAux fuel cs

/-- Remove all injected `MCP_PROMPT|<code>|# ` prompt fragments
(first step of `cleanOutput`). -/
def stripPrompts (s : List Char) : List Char := stripPromptsAux s.length s

/-- Model of `DefaultCommandOutputParser.cleanOutput` applied to a string:
strip the custom `PS1` prompt fragments, then trim whitespace. -/
def cleanOutput (s : List Char) : List Char := trimJs (stripPrompts s)

/-- Parser states of `DefaultCommandOutputParser.state`. -/
inductive PState where
  | IDLE
  | COLLECTING
  | COMPLETED
deriving DecidableEq, Repr

/-- Shallow embedding of `DefaultCommandOutputParser` (the command-id
tracking parser used by `SessionManager`, which calls its
`getCommandId()`).  `startTime`/`endTime` hold the millisecond value of
the corresponding `Date`. -/
structure CmdParser where
  state : PState
  output : List Char
  exitCode : Option Nat
  command : List Char
  startTimeMs : Option Int
  endTimeMs : Option Int
  buffer : List Char
  commandId : List Char
deriving DecidableEq, Repr

/-- Command-id generation of the parser constructor,
`cmd_${Date.now()}_${Math.random().toString(36).substring(2, 10)}`,
with the ambient values (clock, random suffix) passed explicitly. -/
def mkCommandId (now : Nat) (rand : List Char) : List Char :=
  strL ("cmd_") ++ natToDec now ++ strL ("_") ++ rand

/-- Fresh parser as built by `new DefaultCommandOutputParser(command)`,
with the generated command id passed explicitly. -/
def CmdParser.fresh (command id : List Char) : CmdParser :=
  { state := .IDLE, output := [], exitCode := none, command := command,
    startTimeMs := none, endTimeMs := none, buffer := [], commandId := id }

/-- Suffix of `buf` after the first newline at or past position `i`:
models `buffer.indexOf('\n', markerIndex)` followed by
`buffer.substring(lineEndIndex + 1)`, with the source's fallback
`buffer = ''` when no newline exists. -/
def afterFirstNlFrom (i : Nat) (buf : List Char) : List Char :=
  (((buf.drop i).dropWhile (fun c => c ≠ '\n')).drop 1)

/-- Model of `DefaultCommandOutputParser.processStart`: look for this
command's start marker, record its timestamp (fallbacks for a throwing
`parseFloat` are dead code, as `parseFloat` never throws), enter
COLLECTING, and discard the buffer through the end of the marker line. -/
def processStart (p : CmdParser) : CmdParser :=
  match findStartAux p.commandId p.buffer with
  | none => p
  | some (i, ts) =>
    { p with startTimeMs := some (parseTsMs ts),
             state := .COLLECTING,
             buffer := afterFirstNlFrom i p.buffer }

/-- Model of `DefaultCommandOutputParser.processEnd`: look for this
command's end marker; on a match record exit code and end timestamp, take
everything before the marker as output, clean it, and complete. -/
def processEnd (p : CmdParser) : CmdParser :=
  match findEndAux p.commandId p.buffer with
  | none => p
  | some (i, ts, code) =>
    { p with exitCode := some (decToNat code),
             endTimeMs := some (parseTsMs ts),
             output := cleanOutput (p.buffer.take i),
             state := .COMPLETED }

/-- Model of `DefaultCommandOutputParser.processOutput`: append the chunk
to the buffer, then run the state-dependent scans (the COLLECTING scan
also runs immediately after a successful IDLE→COLLECTING step, as in the
source's two consecutive `if`s on `this.state`). -/
def processOutput (p : CmdParser) (chunk : List Char) : CmdParser :=
  let p1 := { p with buffer := p.buffer ++ chunk }
  let p2 := if p1.state = .IDLE then processStart p1 else p1
  if p2.state = .COLLECTING then processEnd p2 else p2

/-- Model of `DefaultCommandOutputParser.isComplete`. -/
def CmdParser.isComplete (p : CmdParser) : Bool := p.state = .COMPLETED

/-- Result record of `CommandParseResult`. -/
structure CommandParseResult where
  output : List Char
  exitCode : Option Nat
  command : List Char
  duration : Option Int
deriving DecidableEq, Repr

/-- Model of `DefaultCommandOutputParser.getResult`: duration is defined
exactly when both timestamps were captured. -/
def CmdParser.getResult (p : CmdParser) : CommandParseResult :=
  { output := p.output,
    exitCode := p.exitCode,
    command := p.command,
    duration :=
      match p.startTimeMs, p.endTimeMs with
      | some a, some b => some (b - a)
      | _, _ => none }

/-- Lines of a string, split at `'\n'` (the line boundaries relevant to
the `/m`-anchored prompt patterns; carriage returns do not occur in the
inputs considered here). -/
def splitLinesAux : List Char → List Char → List (List Char)
  | acc, [] => [acc.reverse]
  | acc, c :: cs =>
    if c = '\n' then acc.reverse :: splitLinesAux [] cs
    else splitLinesAux (c :: acc) cs

/-- Split a string into its lines. -/
def splitLines (s : List Char) : List (List Char) := splitLinesAux [] s

/-- Drop trailing space characters of a line (the ` *$` tails). -/
def stripTrailSp (l : List Char) : List Char :=
  (l.reverse.dropWhile (fun c => c = ' ')).reverse

/-- Drop trailing whitespace of a line (the `\s*$` tail). -/
def stripTrailWs (l : List Char) : List Char := (l.reverse.dropWhile jsWsChar).reverse

/-- Boolean suffix test. -/
def isSufOf (suf l : List Char) : Bool := isPfx suf.reverse l.reverse

/-- Last character of a line equals `c`. -/
def lastIs (l : List Char) (c : Char) : Bool :=
  match l.getLast? with
  | some c2 => c2 = c
  | none => false

/-- Per-line reading of the thirteen `/m` prompt patterns of
`isWaitingForInput`.  A pattern of shape `X[^\n]*$` or `X *$` matches the
multiline-anchored `$` exactly when some line satisfies the corresponding
line-local condition, since neither `[^\n]*` nor ` *` can cross a line
boundary (and a `\s*` run crossing lines always admits an earlier `$`).
One modelling boundary: in clause 13 the class `[^)]` of the JavaScript
pattern also matches `'\n'`, so a parenthesized group spanning several
lines matches in the source but not in this per-line model; the heuristic
inputs considered in the theorems below are single-line, where the two
coincide. -/
def lineWaiting (l : List Char) : Bool :=
  -- 1: `[$#>] *$` (standard shell prompts)
  (match (stripTrailSp l).getLast? with
   | some c => c = '$' || c = '#' || c = '>'
   | none => false) ||
  -- 2: `Password: *$`
  isSufOf (strL ("Password:")) (stripTrailSp l) ||
  -- 3-5: `\(y\/n\)[^\n]*$`, `\(Y\/n\)[^\n]*$`, `\[y\/N\][^\n]*$`
  containsL (strL ("(y/n)")) l ||
  containsL (strL ("(Y/n)")) l ||
  containsL (strL ("[y/N]")) l ||
  -- 6: `Continue\?[^\n]*$`
  containsL (strL ("Continue?")) l ||
  -- 7: `Press [Ee]nter[^\n]*$`
  containsL (strL ("Press Enter")) l || containsL (strL ("Press enter")) l ||
  -- 8: `:\s*$`
  lastIs (stripTrailWs l) ':' ||
  -- 9: `[Mm]ore[^\n]*$`
  containsL (strL ("More")) l || containsL (strL ("more")) l ||
  -- 10: `\? *$`
  lastIs (stripTrailSp l) '?' ||
  -- 11: `[Pp]rompt[^\n]*: *$`
  (lastIs (stripTrailSp l) ':' &&
   (containsL (strL ("Prompt")) (stripTrailSp l).dropLast ||
    containsL (strL ("prompt")) (stripTrailSp l).dropLast)) ||
  -- 12: `^\s*> *$`
  (match l.dropWhile jsWsChar with
   | c :: rest => c = '>' && rest.all (fun c2 => c2 = ' ')
   | [] => false) ||
  -- 13: `\([^)]*\) *$`
  (match (stripTrailSp l).reverse with
   | c :: rest => c = ')' && (rest.takeWhile (fun c2 => c2 ≠ ')')).any (fun c2 => c2 = '(')
   | [] => false)

/-- Model of the exported `isWaitingForInput` heuristic: trim trailing
whitespace, then test the fixed prompt-pattern set against the result. -/
def isWaitingForInput (out : List Char) : Bool :=
  (splitLines (trimEndJs out)).any lineWaiting

/-- JavaScript `\w` word characters, for the `\b` boundaries of
`isInteractiveCommand`. -/
def wordCharJs (c : Char) : Bool := c.isAlpha || c.isDigit || c = '_'

/-- Match of an anchored pattern `^W\b` against `s`: the literal `W`
followed by a word boundary (end of string or a non-word character). -/
def startsTokenB (w s : List Char) : Bool :=
  match pfxRest? w s with
  | none => false
  | some [] => true
  | some (c :: _) => !wordCharJs c

/-- Match of an unanchored `W\b` (used by the `htop` pattern, which has no
`^`). -/
def containsTokenB : List Char → List Char → Bool
  | w, [] => startsTokenB w []
  | w, c :: cs => startsTokenB w (c :: cs) || containsTokenB w cs

/-- Model of the exported `isInteractiveCommand` classifier: the trimmed
command is tested against the fixed list of interactive-program
patterns. -/
def isInteractiveCommand (cmd : List Char) : Bool :=
  let t := trimJs cmd
  startsTokenB (strL ("top")) t || startsTokenB (strL ("vim")) t ||
  startsTokenB (strL ("nano")) t || startsTokenB (strL ("less")) t ||
  startsTokenB (strL ("more")) t || startsTokenB (strL ("ssh")) t ||
  startsTokenB (strL ("man")) t || startsTokenB (strL ("vi")) t ||
  startsTokenB (strL ("emacs")) t || startsTokenB (strL ("python")) t ||
  startsTokenB (strL ("node")) t || startsTokenB (strL ("mysql")) t ||
  startsTokenB (strL ("psql")) t || startsTokenB (strL ("ftp")) t ||
  startsTokenB (strL ("sftp")) t || startsTokenB (strL ("telnet")) t ||
  startsTokenB (strL ("gdb")) t || startsTokenB (strL ("debug")) t ||
  containsTokenB (strL ("htop")) t || startsTokenB (strL ("screen")) t ||
  startsTokenB (strL ("tmux")) t || startsTokenB (strL ("watch")) t ||
  startsTokenB (strL ("tail -f")) t || startsTokenB (strL ("grep --line-buffered")) t

/-- Text of `BASH_INIT_SCRIPT` (bash-init.ts), the snippet injected once
per session. -/
def bashInitScript : List Char :=
  strL ("\n# MCP Bash Session Initialization\n# This script sets up the bash environment for the MCP session\n\n# Save original prompt if it exists\nif [ -z \"$MCP_ORIGINAL_PS1\" ]; then\n  export MCP_ORIGINAL_PS1=\"$PS1\"\nfi\n\n# Custom prompt with exit code - will help us detect command completion\nexport PS1=\"MCP_PROMPT|\\$?|# \"\n\n# Control history behavior - don\x27t store MCP control commands\nexport HISTCONTROL=ignorespace\n\n# Define command marker functions with command ID support\nfunction __mcp_cmd_start \x7b\n  local cmdid=\"$1\"\n  echo \"MCP_CMD_START|$(date +%s.%N)|$cmdid\"\n\x7d\n\nfunction __mcp_cmd_end \x7b\n  local rc=$?\n  local cmdid=\"$1\"\n  echo \"MCP_CMD_END|$(date +%s.%N)|$cmdid|$rc\"\n  return $rc\n\x7d\n\n# Turn off command echoing to avoid duplicate output\nset +o verbose\nset +o xtrace\n\n# Set reasonable terminal environment\nexport TERM=xterm-color\n\n# Echo a marker to indicate initialization is complete\necho \"MCP_INIT_COMPLETE\"\n")

/-- Text of `BASH_INIT_SCRIPT_NONINTERACTIVE` (adds the `stty` lines). -/
def bashInitScriptNonInteractive : List Char :=
  strL ("\n") ++ bashInitScript ++
  strL ("\n# Disable terminal echo for programmatic use\nstty -echo -icanon\n")

/-- Model of `isInitializationComplete`. -/
def isInitializationComplete (output : List Char) : Bool :=
  containsL (strL ("MCP_INIT_COMPLETE")) output

/-- Model of `wrapCommand` (bash-init.ts): the exact text written to the
pseudoterminal for a command and its fresh unique id. -/
def wrapCommand (command commandId : List Char) : List Char :=
  strL ("\n# Run the command with start and end markers\n(\n  __mcp_cmd_start \"") ++
  commandId ++
  strL ("\"\n  (") ++
  command ++
  strL (")\n  CMD_EXIT_CODE=$?\n  __mcp_cmd_end \"") ++
  commandId ++
  strL ("\"\n  exit $CMD_EXIT_CODE\n)")

/-!
Operational model of the status flow of the wrapped command, following
POSIX shell semantics line by line.  The wrapped subshell runs

  `__mcp_cmd_start "<id>"` ; `(<command>)` ; `CMD_EXIT_CODE=$?` ;
  `__mcp_cmd_end "<id>"` ; `exit $CMD_EXIT_CODE`

and `__mcp_cmd_end` begins with `local rc=$?`, i.e. it reads the status of
whatever command ran immediately before it was called.
-/

/-- Shell state threaded through the wrapped command: the special
parameter `$?`, the variable `CMD_EXIT_CODE`, and the exit-code field of
the emitted END marker (once emitted). -/
structure ShellFlowState where
  lastStatus : Nat
  cmdExitCode : Nat
  endMarkerCode : Option Nat
deriving DecidableEq, Repr

/-- `__mcp_cmd_start "<id>"`: a successful `echo`, so `$?` becomes 0. -/
def shellStepStart (st : ShellFlowState) : ShellFlowState := { st with lastStatus := 0 }

/-- `(<command>)`: the command's subshell exits with status `s`. -/
def shellStepCommand (s : Nat) (st : ShellFlowState) : ShellFlowState :=
  { st with lastStatus := s }

/-- `CMD_EXIT_CODE=$?`: the assignment stores the previous status, and a
plain variable assignment itself exits with status 0. -/
def shellStepAssign (st : ShellFlowState) : ShellFlowState :=
  { st with cmdExitCode := st.lastStatus, lastStatus := 0 }

/-- `__mcp_cmd_end "<id>"`: `local rc=$?` captures the status at function
entry, the END marker is emitted with that `rc`, and `return $rc`
propagates it. -/
def shellStepEnd (st : ShellFlowState) : ShellFlowState :=
  { st with endMarkerCode := some st.lastStatus, lastStatus := st.lastStatus }

/-- `exit $CMD_EXIT_CODE`: the wrapped subshell's own exit status. -/
def shellStepExit (st : ShellFlowState) : Nat := st.cmdExitCode

/-- Run the whole wrapped command for a command whose exit status is `s`;
returns the final shell state and the subshell's exit status. -/
def runWrappedFlow (s : Nat) : ShellFlowState × Nat :=
  let st := shellStepEnd (shellStepAssign (shellStepCommand s (shellStepStart
    { lastStatus := 0, cmdExitCode := 0, endMarkerCode := none })))
  (st, shellStepExit st)

/-- START marker line as emitted by `__mcp_cmd_start` (wire format
`MCP_CMD_START|<ts>|<id>` followed by the `echo` newline). -/
def startLineOf (ts id : List Char) : List Char :=
  litStart ++ ts ++ '|' :: id ++ ['\n']

/-- END marker line as emitted by `__mcp_cmd_end` (wire format
`MCP_CMD_END|<ts>|<id>|<code>` followed by the `echo` newline). -/
def endLineOf (ts id code : List Char) : List Char :=
  litEnd ++ ts ++ '|' :: id ++ '|' :: code ++ ['\n']

/-- Marker-relevant transcript of one wrapped command execution: START
line, the command's own output, then the END line whose code field is the
one computed by the status flow above. -/
def wrappedTranscript (ts0 ts1 : Nat) (id cmdOut : List Char) (s : Nat) : List Char :=
  startLineOf (natToDec ts0) id ++ cmdOut ++
  endLineOf (natToDec ts1) id (natToDec (((runWrappedFlow s).1.endMarkerCode).getD 0))

/-- Session lifecycle states (`SessionState` of types/index.ts). -/
inductive SessionState where
  | IDLE
  | RUNNING_COMMAND
  | INTERACTIVE_PROGRAM
deriving DecidableEq, Repr

/-- Printed name of a session state (template interpolation
`${session.state}`). -/
def stateName : SessionState → List Char
  | .IDLE => strL ("IDLE")
  | .RUNNING_COMMAND => strL ("RUNNING_COMMAND")
  | .INTERACTIVE_PROGRAM => strL ("INTERACTIVE_PROGRAM")

/-- Subset of `MCPConfig` the session manager reads. -/
structure MCPConfig where
  allowedDirectories : List (List Char)
  maxActiveSessions : Nat
  sessionTimeout : Nat
  commandTimeout : Nat
deriving DecidableEq, Repr

/-- Shallow embedding of a `Session` record (the pseudoterminal handle is
represented by the effect trace of each operation). -/
structure Session where
  id : List Char
  createdAt : Int
  lastActivity : Int
  cwd : List Char
  isInteractive : Bool
  state : SessionState
  initialized : Bool
  currentParser : Option CmdParser
deriving DecidableEq, Repr

/-- Observable pseudoterminal actions an operation performs. -/
inductive PtyEffect where
  | spawn
  | write (chunk : List Char)
  | kill
  | dispose
deriving DecidableEq, Repr

/-- Shallow embedding of `ExecutionResult`. -/
structure ExecutionResult where
  success : Bool
  output : List Char
  exitCode : Option Nat
  error : Option (List Char)
  sessionId : Option (List Char)
  command : List Char
  isInteractive : Option Bool
  waitingForInput : Option Bool
  duration : Option Int
deriving DecidableEq, Repr

/-- Error text of the busy rejection,
`Session ${sessionId} is busy (${session.state})`. -/
def busyMsg (id : List Char) (st : SessionState) : List Char :=
  strL ("Session ") ++ id ++ strL (" is busy (") ++ stateName st ++ strL (")")

/-- Error text `Session ${sessionId} is not initialized`. -/
def notInitMsg (id : List Char) : List Char :=
  strL ("Session ") ++ id ++ strL (" is not initialized")

/-- Timeout text
`Command timed out after ${this.config.security.commandTimeout} seconds`. -/
def timeoutMsg (cfg : MCPConfig) : List Char :=
  strL ("Command timed out after ") ++ natToDec cfg.commandTimeout ++ strL (" seconds")

/-- Busy-rejection result of `executeInSession`. -/
def busyResult (s : Session) (command : List Char) : ExecutionResult :=
  { success := false, output := [], exitCode := none,
    error := some (busyMsg s.id s.state), sessionId := none, command := command,
    isInteractive := none, waitingForInput := none, duration := none }

/-- Outcome of the synchronous part of `executeInSession`: the updated
session, an immediate rejection (if any), and the pseudoterminal
effects. -/
structure ExecStartOut where
  session : Session
  immediate : Option ExecutionResult
  effects : List PtyEffect
deriving DecidableEq, Repr

/-- Synchronous prefix of `SessionManager.executeInSession` for a session
found in the registry: the uninitialized rejection, the `lastActivity`
refresh, the busy rejection, the interactive classification, the fresh
parser (its generated id passed as `freshId`), and the write of the
wrapped command.  When `immediate = none` the command is in flight,
awaiting `execDataEvent` / `execTimeoutEvent`. -/
def executeInSessionStart (now : Int) (freshId : List Char) (s : Session)
    (command : List Char) : ExecStartOut :=
  if s.initialized = false then
    { session := s,
      immediate := some { success := false, output := [], exitCode := none,
                          error := some (notInitMsg s.id), sessionId := none,
                          command := command, isInteractive := none,
                          waitingForInput := none, duration := none },
      effects := [] }
  else
    let s1 := { s with lastActivity := now }
    if s1.state ≠ .IDLE then
      { session := s1, immediate := some (busyResult s1 command), effects := [] }
    else
      let inter := isInteractiveCommand command
      let s2 := { s1 with
        state := if inter then SessionState.INTERACTIVE_PROGRAM
                 else SessionState.RUNNING_COMMAND,
        currentParser := some (CmdParser.fresh command freshId) }
      { session := s2, immediate := none,
        effects := [.write (wrapCommand command freshId ++ ['\n'])] }

/-- Outcome of one pseudoterminal data event while a command is in
flight. -/
structure DataEvOut where
  session : Session
  parser : CmdParser
  resolved : Option ExecutionResult
  effects : List PtyEffect
deriving DecidableEq, Repr

/-- Model of the `onData` handler installed by `executeInSession`: feed
the chunk to the parser unless it already completed; on completion,
dispose the listener, restore the session state, and resolve with the
parser's result (note `success: result.exitCode === 0` and
`exitCode: result.exitCode || undefined`, which maps the exit code 0 —
and `null` — to an absent field). -/
def execDataEvent (s : Session) (inter : Bool) (p : CmdParser) (chunk : List Char) :
    DataEvOut :=
  if p.state = .COMPLETED then
    { session := s, parser := p, resolved := none, effects := [] }
  else
    let p2 := processOutput p chunk
    if p2.state = .COMPLETED then
      let result := p2.getResult
      { session := { s with
          state := if inter then SessionState.INTERACTIVE_PROGRAM else SessionState.IDLE },
        parser := p2,
        resolved := some
          { success := decide (result.exitCode = some 0),
            output := result.output,
            exitCode := if result.exitCode = some 0 then none else result.exitCode,
            error := none,
            sessionId := some s.id,
            command := p2.command,
            isInteractive := some inter,
            waitingForInput := some (isWaitingForInput result.output),
            duration := result.duration },
        effects := [.dispose] }
    else
      { session := s, parser := p2, resolved := none, effects := [] }

/-- Outcome of the command-timeout timer of `executeInSession`. -/
structure TimeoutEvOut where
  session : Session
  resolved : Option ExecutionResult
  effects : List PtyEffect
deriving DecidableEq, Repr

/-- Model of the `setTimeout` callback of `executeInSession`: if the
captured parser has not completed, dispose the listener, repair the
session to IDLE, discard the parser, and resolve with the timeout result;
the pseudoterminal process is left running (no kill). -/
def execTimeoutEvent (cfg : MCPConfig) (s : Session) (p : CmdParser)
    (command : List Char) : TimeoutEvOut :=
  if p.state ≠ .COMPLETED then
    { session := { s with state := .IDLE, currentParser := none },
      resolved := some
        { success := false, output := timeoutMsg cfg, exitCode := none,
          error := some (timeoutMsg cfg), sessionId := some s.id,
          command := command, isInteractive := none, waitingForInput := none,
          duration := none },
      effects := [.dispose] }
  else
    { session := s, resolved := none, effects := [] }

/-- Synchronous part of `SessionManager.sendInput` for a found session:
refresh `lastActivity`, write the raw input (plus newline) unwrapped. -/
def sendInputCall (now : Int) (s : Session) (input : List Char) :
    Session × List PtyEffect :=
  ({ s with lastActivity := now }, [.write (input ++ ['\n'])])

/-- Synchronous part of `SessionManager.collectOutputAfterInput` for a
found session: refresh `lastActivity`, install the listener, write the
raw input. -/
def collectOutputAfterInputStart (now : Int) (s : Session) (input : List Char) :
    Session × List PtyEffect :=
  ({ s with lastActivity := now }, [.write (input ++ ['\n'])])

/-- Split a string at a separator character (used for `/`-segmenting
paths). -/
def splitSepAux (sep : Char) : List Char → List Char → List (List Char)
  | acc, [] => [acc.reverse]
  | acc, c :: cs =>
    if c = sep then acc.reverse :: splitSepAux sep [] cs
    else splitSepAux sep (c :: acc) cs

/-- All segments of a string between occurrences of `sep`. -/
def splitSep (sep : Char) (s : List Char) : List (List Char) := splitSepAux sep [] s

/-- Segment-stack processing of POSIX `path.normalize`: skip empty and
`.` segments, let `..` pop a previous real segment (at the root of an
absolute path a stray `..` vanishes; in a relative path it is kept). -/
def normSegs (isAbs : Bool) : List (List Char) → List (List Char) → List (List Char)
  | stack, [] => stack.reverse
  | stack, seg :: rest =>
    if seg = [] || seg = strL (".") then normSegs isAbs stack rest
    else if seg = strL ("..") then
      match stack with
      | [] => if isAbs then normSegs isAbs [] rest else normSegs isAbs [seg] rest
      | top :: stack2 =>
        if top = strL ("..") then normSegs isAbs (seg :: stack) rest
        else normSegs isAbs stack2 rest
    else normSegs isAbs (seg :: stack) rest

/-- Join segments with `/`. -/
def joinSegs : List (List Char) → List Char
  | [] => []
  | [s] => s
  | s :: rest => s ++ '/' :: joinSegs rest

/-- Model of Node's POSIX `path.normalize` for the well-formed paths a
caller passes as working directories: resolve `.` and `..`, collapse
duplicate separators, preserve a trailing slash.  (Degenerate inputs such
as the empty string follow Node's documented fallbacks.) -/
def normalizePath (p : List Char) : List Char :=
  if p = [] then strL (".")
  else
    let isAbs := p.head? = some '/'
    let core := joinSegs (normSegs isAbs [] (splitSep '/' p))
    let base :=
      if isAbs then '/' :: core
      else if core = [] then strL (".") else core
    if lastIs p '/' && core ≠ [] then base ++ strL ("/") else base

/-- Model of `isDirectoryAllowed` (validator.ts): the normalized directory
equals a normalized allowed root or extends one past a separator. -/
def isDirectoryAllowed (dir : List Char) (cfg : MCPConfig) : Bool :=
  if dir = [] then false
  else
    cfg.allowedDirectories.any (fun a =>
      let nd := normalizePath dir
      let na := normalizePath a
      nd = na || isPfx (na ++ strL ("/")) nd)

/-- Outcome of the synchronous part of `SessionManager.createSession`. -/
structure CreateOut where
  created : Option Session
  registry : List Session
  effects : List PtyEffect
deriving DecidableEq, Repr

/-- Synchronous prefix of `SessionManager.createSession`: the allow-list
check and the capacity check happen before anything is spawned; only then
is the pseudoterminal spawned, the session registered (pending
initialization), and the init script written. -/
def createSessionStart (cfg : MCPConfig) (uuid : List Char) (now : Int)
    (registry : List Session) (cwd : List Char) (interactive : Bool) : CreateOut :=
  if isDirectoryAllowed cwd cfg = false then
    { created := none, registry := registry, effects := [] }
  else if cfg.maxActiveSessions ≤ registry.length then
    { created := none, registry := registry, effects := [] }
  else
    let s : Session :=
      { id := uuid, createdAt := now, lastActivity := now, cwd := cwd,
        isInteractive := true, state := .IDLE, initialized := false,
        currentParser := none }
    { created := some s, registry := registry ++ [s],
      effects := [.spawn,
        .write ((if interactive then bashInitScript else bashInitScriptNonInteractive)
          ++ ['\n'])] }

/-- Expiry test of `cleanupExpiredSessions`:
`now - lastActivity > config.session.timeout * 1000`. -/
def sessionExpired (cfg : MCPConfig) (now : Int) (s : Session) : Bool :=
  decide (now - s.lastActivity > (cfg.sessionTimeout : Int) * 1000)

/-- Model of `SessionManager.cleanupExpiredSessions`: every expired
session is closed (its pseudoterminal killed, its entry removed),
regardless of its state or any in-flight parser. -/
def cleanupExpiredSessions (cfg : MCPConfig) (now : Int) (registry : List Session) :
    List Session × List PtyEffect :=
  (registry.filter (fun s => !sessionExpired cfg now s),
   (registry.filter (fun s => sessionExpired cfg now s)).map (fun _ => PtyEffect.kill))

/-- Events the `collectOutputAfterInput` promise can observe: a
pseudoterminal data chunk, the 100 ms settle timer firing, and the
collection timeout firing. -/
inductive CollectEv where
  | data (chunk : List Char)
  | settleFires
  | timeoutFires
deriving DecidableEq, Repr

/-- State of one `collectOutputAfterInput` call: the accumulated output,
the `resultSent` flag, whether a settle timer is pending, whether the data
listener has been disposed, and the list of resolutions delivered so far
(a JavaScript promise may syntactically be resolved several times; the
list records every attempt that actually runs `resolve`). -/
structure CollectSt where
  output : List Char
  resultSent : Bool
  settlePending : Bool
  disposed : Bool
  resolved : List ExecutionResult
deriving DecidableEq, Repr

/-- Initial state of a `collectOutputAfterInput` call. -/
def collectInit : CollectSt :=
  { output := [], resultSent := false, settlePending := false, disposed := false,
    resolved := [] }

/-- Resolution produced by the settle-delay path (prompt heuristic fired;
output re-read at settle time, `waitingForInput: true`). -/
def collectSettleResult (sid input : List Char) (st : CollectSt) : ExecutionResult :=
  { success := true, output := st.output, exitCode := none, error := none,
    sessionId := some sid, command := input, isInteractive := some true,
    waitingForInput := some true, duration := none }

/-- Resolution produced by the timeout path (`waitingForInput` recomputed
from the collected output). -/
def collectTimeoutResult (sid input : List Char) (st : CollectSt) : ExecutionResult :=
  { success := true, output := st.output, exitCode := none, error := none,
    sessionId := some sid, command := input, isInteractive := some true,
    waitingForInput := some (isWaitingForInput st.output), duration := none }

/-- One event of the `collectOutputAfterInput` machine, straight from the
source: a data event appends to `output` (unless the listener is
disposed) and, when the output is nonempty, the heuristic fires and
`resultSent` is still clear, sets `resultSent` and schedules the settle
timer; the settle timer disposes and resolves; the timeout disposes and
resolves only when `resultSent` is still clear. -/
def collectStep (sid input : List Char) (st : CollectSt) (e : CollectEv) : CollectSt :=
  match e with
  | .data c =>
    if st.disposed then st
    else
      let st1 := { st with output := st.output ++ c }
      if !st1.output.isEmpty && isWaitingForInput st1.output && !st1.resultSent then
        { st1 with resultSent := true, settlePending := true }
      else st1
  | .settleFires =>
    if st.settlePending then
      { st with settlePending := false, disposed := true,
                resolved := st.resolved ++ [collectSettleResult sid input st] }
    else st
  | .timeoutFires =>
    if st.resultSent then st
    else
      { st with resultSent := true, disposed := true,
                resolved := st.resolved ++ [collectTimeoutResult sid input st] }

/-- Run a whole event sequence of one `collectOutputAfterInput` call. -/
def collectRun (sid input : List Char) (evs : List CollectEv) : CollectSt :=
  evs.foldl (collectStep sid input) collectInit

/-- Invariant of the `collectOutputAfterInput` state machine: before
`resultSent` nothing is resolved and no settle timer is pending; a pending
settle timer means the resolution is still to come; after `resultSent`
either the settle timer is pending or exactly one resolution was
delivered; never more than one resolution; and any resolution implies the
listener was disposed. -/
def collectInv (st : CollectSt) : Prop :=
  (st.resultSent = false → st.settlePending = false ∧ st.resolved = []) ∧
  (st.settlePending = true → st.resolved = []) ∧
  (st.resultSent = true → st.settlePending = true ∨ st.resolved.length = 1) ∧
  st.resolved.length ≤ 1 ∧
  (st.resolved ≠ [] → st.disposed = true)

/-- Well-formedness of a generated command id: nonempty, over the
alphabet `cmd_${Date.now()}_${base36}` actually produces — lowercase
letters, digits and underscore (hence no `|`, no newline, no regex
metacharacter, no uppercase `M`). -/
def IdOk (id : List Char) : Prop :=
  id ≠ [] ∧ ∀ c ∈ id, (c.isLower || c.isDigit || c = '_') = true

/-- Well-formedness of a marker timestamp field: a nonempty run of the
class `[0-9.]` (what `date +%s.%N` emits). -/
def TsOk (ts : List Char) : Prop :=
  ts ≠ [] ∧ ∀ c ∈ ts, isTsChar c = true

/-!
Supporting lemmas about the string primitives and the marker matchers.
-/

theorem pfxRest?_append_self (a r : List Char) : pfxRest? a (a ++ r) = some r := by
  induction a with
  | nil => rfl
  | cons c cs ih => simp [pfxRest?, ih]

theorem pfxRest?_append_cancel (a b c : List Char) :
    pfxRest? (a ++ b) (a ++ c) = pfxRest? b c := by
  induction a with
  | nil => rfl
  | cons x xs ih => simp [pfxRest?, ih]

theorem pfxRest?_eq_some {a s r : List Char} (h : pfxRest? a s = some r) :
    s = a ++ r := by
  induction a generalizing s with
  | nil => simpa [pfxRest?] using h
  | cons c cs ih =>
    cases s with
    | nil => simp [pfxRest?] at h
    | cons b bs =>
      by_cases hcb : c = b
      · subst hcb
        simp only [pfxRest?, if_pos rfl] at h
        simpa using ih h
      · simp [pfxRest?, hcb] at h

theorem pfxRest?_append_of_some {a s r : List Char} (h : pfxRest? a s = some r)
    (t : List Char) : pfxRest? a (s ++ t) = some (r ++ t) := by
  have hs := pfxRest?_eq_some h
  subst hs
  rw [List.append_assoc, pfxRest?_append_self]

theorem isPfx_append {a s : List Char} (h : isPfx a s = true) (t : List Char) :
    isPfx a (s ++ t) = true := by
  unfold isPfx at *
  cases hp : pfxRest? a s with
  | none => simp [hp] at h
  | some r => simp [pfxRest?_append_of_some hp t]

theorem isPfx_self_append (a r : List Char) : isPfx a (a ++ r) = true := by
  simp [isPfx, pfxRest?_append_self]

theorem containsL_cons_unfold (n : List Char) (c : Char) (cs : List Char) :
    containsL n (c :: cs) = (isPfx n (c :: cs) || containsL n cs) := rfl

theorem containsL_here (n r : List Char) : containsL n (n ++ r) = true := by
  cases n with
  | nil =>
    cases r with
    | nil => rfl
    | cons c cs => simp [containsL, isPfx, pfxRest?]
  | cons c cs =>
    have hstep : containsL (c :: cs) ((c :: cs) ++ r) =
        (isPfx (c :: cs) ((c :: cs) ++ r) || containsL (c :: cs) (cs ++ r)) := rfl
    rw [hstep, isPfx_self_append, Bool.true_or]

theorem containsL_append_right {n t : List Char} (h : containsL n t = true)
    (a : List Char) : containsL n (a ++ t) = true := by
  induction a with
  | nil => simpa using h
  | cons c cs ih =>
    have hstep : containsL n ((c :: cs) ++ t) =
        (isPfx n ((c :: cs) ++ t) || containsL n (cs ++ t)) := rfl
    rw [hstep, ih, Bool.or_true]

theorem containsL_append_left {n a : List Char} (h : containsL n a = true)
    (t : List Char) : containsL n (a ++ t) = true := by
  induction a with
  | nil =>
    cases n with
    | nil => cases t with
      | nil => rfl
      | cons c cs => simp [containsL, isPfx, pfxRest?]
    | cons c cs => simp [containsL, isPfx, pfxRest?] at h
  | cons c cs ih =>
    have hstep : containsL n ((c :: cs) ++ t) =
        (isPfx n ((c :: cs) ++ t) || containsL n (cs ++ t)) := rfl
    rw [hstep]
    rcases Bool.or_eq_true_iff.mp h with h1 | h2
    · rw [isPfx_append h1, Bool.true_or]
    · rw [ih h2, Bool.or_true]

theorem takeWhile_run_stop (p : Char → Bool) (run : List Char) (c : Char)
    (r : List Char) (hrun : ∀ x ∈ run, p x = true) (hc : p c = false) :
    (run ++ c :: r).takeWhile p = run ∧ (run ++ c :: r).dropWhile p = c :: r := by
  induction run with
  | nil => simp [List.takeWhile, List.dropWhile, hc]
  | cons x xs ih =>
    have hx : p x = true := hrun x (by simp)
    have := ih (fun y hy => hrun y (by simp [hy]))
    simp [List.takeWhile, List.dropWhile, hx, this.1, this.2]

theorem mem_drop_subset {c : Char} {l : List Char} {n : Nat} (h : c ∈ l.drop n) :
    c ∈ l := List.mem_of_mem_drop h

theorem isPfx_false_of_head {c0 : Char} {lit : List Char} (hl : ∃ t, lit = c0 :: t)
    {s : List Char} (h : ∀ c ∈ s, c ≠ c0) : isPfx lit s = false := by
  obtain ⟨t, rfl⟩ := hl
  cases s with
  | nil => rfl
  | cons b bs =>
    have hb : c0 ≠ b := fun hh => (h b (by simp)) hh.symm
    simp [isPfx, pfxRest?, hb]

/-!
Digit rendering and parsing lemmas.
-/

theorem digitChar_isDigit {n : Nat} (h : n < 10) : (digitChar n).isDigit = true := by
  interval_cases n <;> decide

theorem digitChar_toNat {n : Nat} (h : n < 10) : (digitChar n).toNat = 48 + n := by
  interval_cases n <;> decide

theorem natToDecAux_digits (fuel n : Nat) : ∀ c ∈ natToDecAux fuel n, c.isDigit = true := by
  induction fuel generalizing n with
  | zero => simp [natToDecAux]
  | succ f ih =>
    intro c hc
    by_cases h : n < 10
    · simp only [natToDecAux, if_pos h, List.mem_singleton] at hc
      subst hc; exact digitChar_isDigit h
    · simp only [natToDecAux, if_neg h, List.mem_append, List.mem_singleton] at hc
      rcases hc with hc | hc
      · exact ih _ _ hc
      · subst hc; exact digitChar_isDigit (Nat.mod_lt _ (by norm_num))

theorem natToDec_digits (n : Nat) : ∀ c ∈ natToDec n, c.isDigit = true :=
  natToDecAux_digits _ _

theorem natToDecAux_ne_nil {fuel n : Nat} (h : n < fuel) : natToDecAux fuel n ≠ [] := by
  cases fuel with
  | zero => omega
  | succ f =>
    by_cases h10 : n < 10
    · simp [natToDecAux, if_pos h10]
    · simp only [natToDecAux, if_neg h10]
      intro hc
      exact absurd (List.append_eq_nil.mp hc).2 (by simp)

theorem natToDec_ne_nil (n : Nat) : natToDec n ≠ [] :=
  natToDecAux_ne_nil (Nat.lt_succ_self n)

theorem decToNat_append (a b : List Char) :
    decToNat (a ++ b) = b.foldl (fun x c => x * 10 + (c.toNat - 48)) (decToNat a) := by
  simp [decToNat, List.foldl_append]

theorem decToNat_natToDecAux {fuel n : Nat} (h : n < fuel) :
    decToNat (natToDecAux fuel n) = n := by
  induction fuel generalizing n with
  | zero => omega
  | succ f ih =>
    by_cases h10 : n < 10
    · simp only [natToDecAux, if_pos h10, decToNat, List.foldl]
      rw [digitChar_toNat h10]
      omega
    · simp only [natToDecAux, if_neg h10]
      rw [decToNat_append]
      have hrec : decToNat (natToDecAux f (n / 10)) = n / 10 := ih (by omega)
      simp only [List.foldl, hrec]
      rw [digitChar_toNat (Nat.mod_lt _ (by norm_num))]
      omega

theorem decToNat_natToDec (n : Nat) : decToNat (natToDec n) = n :=
  decToNat_natToDecAux (Nat.lt_succ_self n)

theorem takeWhile_all (p : Char → Bool) {l : List Char} (h : ∀ c ∈ l, p c = true) :
    l.takeWhile p = l ∧ l.dropWhile p = [] := by
  induction l with
  | nil => simp
  | cons c cs ih =>
    have hc : p c = true := h c (by simp)
    have := ih (fun y hy => h y (by simp [hy]))
    simp [List.takeWhile, List.dropWhile, hc, this.1, this.2]

theorem parseTsMs_digits {ts : List Char} (h : ∀ c ∈ ts, c.isDigit = true) :
    parseTsMs ts = (decToNat ts : Int) * 1000 := by
  have := takeWhile_all Char.isDigit h
  unfold parseTsMs
  rw [this.1, this.2]
  simp

theorem parseTsMs_natToDec (n : Nat) : parseTsMs (natToDec n) = (n : Int) * 1000 := by
  rw [parseTsMs_digits (natToDec_digits n), decToNat_natToDec]

/-!
Character-class consequences used in the marker-position analysis.
-/

theorem idChar_ne {c : Char} (h : (c.isLower || c.isDigit || c = '_') = true) :
    c ≠ 'M' ∧ c ≠ '|' ∧ c ≠ '\n' := by
  refine ⟨fun he => ?_, fun he => ?_, fun he => ?_⟩ <;>
    (subst he; exact absurd h (by decide))

theorem tsChar_ne {c : Char} (h : isTsChar c = true) :
    c ≠ 'M' ∧ c ≠ '|' ∧ c ≠ '\n' := by
  refine ⟨fun he => ?_, fun he => ?_, fun he => ?_⟩ <;>
    (subst he; exact absurd h (by decide))

theorem digitChar_ne {c : Char} (h : c.isDigit = true) :
    c ≠ 'M' ∧ c ≠ '|' ∧ c ≠ '\n' := by
  refine ⟨fun he => ?_, fun he => ?_, fun he => ?_⟩ <;>
    (subst he; exact absurd h (by decide))

theorem idOk_no_nl {id : List Char} (h : IdOk id) : ∀ c ∈ id, c ≠ '\n' :=
  fun c hc => (idChar_ne (h.2 c hc)).2.2

theorem idOk_no_pipe {id : List Char} (h : IdOk id) : ∀ c ∈ id, c ≠ '|' :=
  fun c hc => (idChar_ne (h.2 c hc)).2.1

theorem idOk_no_M {id : List Char} (h : IdOk id) : ∀ c ∈ id, c ≠ 'M' :=
  fun c hc => (idChar_ne (h.2 c hc)).1

theorem tsOk_natToDec (n : Nat) : TsOk (natToDec n) :=
  ⟨natToDec_ne_nil n,
   fun c hc => by simp [isTsChar, natToDec_digits n c hc]⟩

/-- Prefix characterization of `isPfx`. -/
theorem isPfx_eq_true_iff {a b : List Char} : isPfx a b = true ↔ ∃ r, b = a ++ r := by
  constructor
  · intro h
    unfold isPfx at h
    cases hp : pfxRest? a b with
    | none => rw [hp] at h; simp at h
    | some r => exact ⟨r, pfxRest?_eq_some hp⟩
  · rintro ⟨r, rfl⟩
    exact isPfx_self_append a r

/-- A marker literal starting with `'M'` cannot be a prefix of any suffix
of a string whose characters are all different from `'M'`. -/
theorem isPfx_lit_false_in_noM {lit : List Char} (hl : ∃ t, lit = 'M' :: t)
    {s : List Char} (h : ∀ c ∈ s, c ≠ 'M') (q : Nat) :
    isPfx lit (s.drop q) = false :=
  isPfx_false_of_head hl (fun c hc => h c (List.mem_of_mem_drop hc))

/-- The START literal occurs in `litStart ++ rest` only at position 0 when
`rest` contains no `'M'` (the literal has no nontrivial self-overlap, and
its only interior `'M'` — position 5 — mismatches immediately). -/
theorem litStart_length : litStart.length = 14 := by decide

theorem litEnd_length : litEnd.length = 12 := by decide

theorem litStart_only_at_zero {rest : List Char} (hM : ∀ c ∈ rest, c ≠ 'M') :
    ∀ p, 0 < p → isPfx litStart ((litStart ++ rest).drop p) = false := by
  intro p hp
  by_cases hle : p ≤ 13
  · have hdrop : (litStart ++ rest).drop p = litStart.drop p ++ rest :=
      List.drop_append_of_le_length (by rw [litStart_length]; omega)
    rw [hdrop]
    interval_cases p <;> rfl
  · have hsplit : p = litStart.length + (p - 14) := by rw [litStart_length]; omega
    rw [hsplit, List.drop_append]
    exact isPfx_lit_false_in_noM ⟨strL ("CP_CMD_START|"), rfl⟩ hM _

/-- The END literal occurs in `litEnd ++ rest` only at position 0 when
`rest` contains no `'M'`. -/
theorem litEnd_only_at_zero {rest : List Char} (hM : ∀ c ∈ rest, c ≠ 'M') :
    ∀ p, 0 < p → isPfx litEnd ((litEnd ++ rest).drop p) = false := by
  intro p hp
  by_cases hle : p ≤ 11
  · have hdrop : (litEnd ++ rest).drop p = litEnd.drop p ++ rest :=
      List.drop_append_of_le_length (by rw [litEnd_length]; omega)
    rw [hdrop]
    interval_cases p <;> rfl
  · have hsplit : p = litEnd.length + (p - 12) := by rw [litEnd_length]; omega
    rw [hsplit, List.drop_append]
    exact isPfx_lit_false_in_noM ⟨strL ("CP_CMD_END|"), rfl⟩ hM _

theorem matchStartAt_none_of_noLit {id s : List Char}
    (h : isPfx litStart s = false) : matchStartAt id s = none := by
  unfold matchStartAt
  cases hp : pfxRest? litStart s with
  | none => rfl
  | some r => rw [isPfx, hp] at h; simp at h

theorem matchEndAt_none_of_noLit {id s : List Char}
    (h : isPfx litEnd s = false) : matchEndAt id s = none := by
  unfold matchEndAt
  cases hp : pfxRest? litEnd s with
  | none => rfl
  | some r => rw [isPfx, hp] at h; simp at h

theorem findStartAux_none {id s : List Char}
    (h : ∀ p, matchStartAt id (s.drop p) = none) : findStartAux id s = none := by
  induction s with
  | nil => rfl
  | cons c cs ih =>
    have h0 := h 0
    simp only [List.drop_zero] at h0
    have hrest : findStartAux id cs = none := ih (fun p => h (p + 1))
    simp [findStartAux, h0, hrest]

theorem findEndAux_none {id s : List Char}
    (h : ∀ p, matchEndAt id (s.drop p) = none) : findEndAux id s = none := by
  induction s with
  | nil => rfl
  | cons c cs ih =>
    have h0 := h 0
    simp only [List.drop_zero] at h0
    have hrest : findEndAux id cs = none := ih (fun p => h (p + 1))
    simp [findEndAux, h0, hrest]

theorem findStartAux_at_zero {id s : List Char} {ts : List Char}
    (h : matchStartAt id s = some ts) : findStartAux id s = some (0, ts) := by
  cases s with
  | nil => rw [matchStartAt] at h; simp [pfxRest?, litStart, strL] at h
  | cons c cs => simp [findStartAux, h]

theorem findEndAux_first {id a b : List Char} {ts code : List Char}
    (hfail : ∀ p, p < a.length → matchEndAt id ((a ++ b).drop p) = none)
    (hb : matchEndAt id b = some (ts, code)) :
    findEndAux id (a ++ b) = some (a.length, ts, code) := by
  induction a with
  | nil =>
    cases b with
    | nil => rw [matchEndAt] at hb; simp [pfxRest?, litEnd, strL] at hb
    | cons c cs => simp [findEndAux, hb]
  | cons c a' ih =>
    have h0 : matchEndAt id (c :: (a' ++ b)) = none := by
      have := hfail 0 (by simp)
      simpa using this
    have ih2 := ih (fun p hp => by
      have := hfail (p + 1) (by simpa using Nat.succ_lt_succ hp)
      simpa using this)
    simp [findEndAux, h0, ih2]

theorem pfxRest?_cons_same (c : Char) (a b : List Char) :
    pfxRest? (c :: a) (c :: b) = pfxRest? a b := by
  simp [pfxRest?]

/-- Successful match of this command's START marker at the head of the
marker line. -/
theorem matchStartAt_startLine {ts id : List Char} (r : List Char)
    (hts : TsOk ts) :
    matchStartAt id (litStart ++ (ts ++ '|' :: (id ++ r))) = some ts := by
  unfold matchStartAt
  rw [pfxRest?_append_self]
  have hrun := takeWhile_run_stop isTsChar ts '|' (id ++ r) hts.2 (by decide)
  simp only [hrun.1, hrun.2, if_neg hts.1]
  rw [pfxRest?_cons_same, pfxRest?_append_self]

/-- Successful match of this command's END marker at the head of the
marker line. -/
theorem matchEndAt_endLine {ts id code : List Char} (r : List Char)
    (hts : TsOk ts) (hcode : code ≠ []) (hcodeD : ∀ c ∈ code, c.isDigit = true) :
    matchEndAt id (litEnd ++ (ts ++ '|' :: (id ++ '|' :: (code ++ '\n' :: r)))) =
      some (ts, code) := by
  unfold matchEndAt
  rw [pfxRest?_append_self]
  have hrun := takeWhile_run_stop isTsChar ts '|' (id ++ '|' :: (code ++ '\n' :: r))
    hts.2 (by decide)
  simp only [hrun.1, hrun.2, if_neg hts.1]
  have hpipe : pfxRest? ('|' :: (id ++ ['|'])) ('|' :: (id ++ '|' :: (code ++ '\n' :: r))) =
      some (code ++ '\n' :: r) := by
    rw [pfxRest?_cons_same]
    have harr : id ++ '|' :: (code ++ '\n' :: r) = (id ++ ['|']) ++ (code ++ '\n' :: r) := by
      simp
    rw [harr, pfxRest?_append_self]
  rw [hpipe]
  have hcrun := takeWhile_run_stop Char.isDigit code '\n' r hcodeD (by decide)
  simp only [hcrun.1, if_neg hcode]

/-- A START marker carrying a foreign id `U'` of which `U` is not a prefix
does not match `U`'s start pattern at position 0. -/
theorem matchStartAt_foreign {U U' ts : List Char} (hts : TsOk ts)
    (hUnl : ∀ c ∈ U, c ≠ '\n') (hnp : isPfx U U' = false) :
    matchStartAt U (litStart ++ (ts ++ '|' :: (U' ++ ['\n']))) = none := by
  unfold matchStartAt
  rw [pfxRest?_append_self]
  have hrun := takeWhile_run_stop isTsChar ts '|' (U' ++ ['\n']) hts.2 (by decide)
  simp only [hrun.1, hrun.2, if_neg hts.1]
  have hnone : pfxRest? ('|' :: U) ('|' :: (U' ++ ['\n'])) = none := by
    rw [pfxRest?_cons_same]
    cases hp : pfxRest? U (U' ++ ['\n']) with
    | none => rfl
    | some r =>
      exfalso
      have hpre : U <+: U' ++ ['\n'] := ⟨r, (pfxRest?_eq_some hp).symm⟩
      rcases List.prefix_concat_iff.mp hpre with heq | hpre2
      · refine hUnl '\n' ?_ rfl
        rw [heq]
        exact List.mem_append_right _ (by simp)
      · obtain ⟨t, ht⟩ := hpre2
        exact absurd (isPfx_eq_true_iff.mpr ⟨t, ht.symm⟩) (by simp [hnp])
  rw [hnone]

/-- Two distinct pipe-free ids cannot satisfy `U|` being a prefix of
`U'|...`: matching the pipe-terminated id forces the ids to be equal. -/
theorem pipe_terminated_id_unique : ∀ (U U' : List Char), (∀ c ∈ U, c ≠ '|') →
    (∀ c ∈ U', c ≠ '|') → U ≠ U' → ∀ (rest : List Char),
    pfxRest? (U ++ ['|']) (U' ++ '|' :: rest) = none
  | [], [], _, _, hne, _ => absurd rfl hne
  | [], c' :: _, _, hU', _, _ => by
    have hpc : '|' ≠ c' := fun h => hU' c' (by simp) h.symm
    simp [pfxRest?, hpc]
  | c :: _, [], hU, _, _, _ => by
    have hcp : c ≠ '|' := hU c (by simp)
    simp [pfxRest?, hcp]
  | c :: cs, c' :: cs', hU, hU', hne, rest => by
    by_cases hcc : c = c'
    · subst hcc
      have hrec := pipe_terminated_id_unique cs cs'
        (fun x hx => hU x (by simp [hx]))
        (fun x hx => hU' x (by simp [hx]))
        (fun he => hne (by rw [he])) rest
      simpa [pfxRest?] using hrec
    · simp [pfxRest?, hcc]

/-- An END marker carrying a foreign id `U' ≠ U` (both over the id
alphabet) never matches `U`'s end pattern at position 0: the pattern's
trailing `|` pins the id exactly. -/
theorem matchEndAt_foreign {U U' ts code : List Char} (hts : TsOk ts)
    (hUp : ∀ c ∈ U, c ≠ '|') (hU'p : ∀ c ∈ U', c ≠ '|') (hne : U ≠ U') :
    matchEndAt U (litEnd ++ (ts ++ '|' :: (U' ++ '|' :: code))) = none := by
  unfold matchEndAt
  rw [pfxRest?_append_self]
  have hrun := takeWhile_run_stop isTsChar ts '|' (U' ++ '|' :: code) hts.2 (by decide)
  simp only [hrun.1, hrun.2, if_neg hts.1]
  have hnone : pfxRest? ('|' :: (U ++ ['|'])) ('|' :: (U' ++ '|' :: code)) = none := by
    rw [pfxRest?_cons_same]
    exact pipe_terminated_id_unique U U' hUp hU'p hne code
  rw [hnone]

/-!
Behavior of `processOutput` on whole marker lines.
-/

theorem startLineOf_assoc (ts id : List Char) :
    startLineOf ts id = litStart ++ (ts ++ '|' :: (id ++ ['\n'])) := by
  simp [startLineOf]

theorem endLineOf_assoc (ts id code : List Char) :
    endLineOf ts id code = litEnd ++ (ts ++ '|' :: (id ++ '|' :: (code ++ '\n' :: []))) := by
  simp [endLineOf]

theorem startLineOf_line (ts id : List Char) :
    startLineOf ts id = (litStart ++ ts ++ '|' :: id) ++ '\n' :: [] := by
  simp [startLineOf]

theorem litStart_no_nl : ∀ c ∈ litStart, c ≠ '\n' := by decide

theorem afterFirstNl_line {a : List Char} (h : ∀ c ∈ a, c ≠ '\n') (r : List Char) :
    afterFirstNlFrom 0 (a ++ '\n' :: r) = r := by
  unfold afterFirstNlFrom
  simp only [List.drop_zero]
  have hrun := takeWhile_run_stop (fun c => c ≠ '\n') a '\n' r
    (fun x hx => by simp [h x hx]) (by decide)
  rw [hrun.2]
  simp

theorem processOutput_collecting_nomatch (p : CmdParser) (chunk : List Char)
    (hst : p.state = PState.COLLECTING)
    (h : findEndAux p.commandId (p.buffer ++ chunk) = none) :
    processOutput p chunk = { p with buffer := p.buffer ++ chunk } := by
  unfold processOutput
  simp [hst, processEnd, h]

theorem processOutput_collecting_match (p : CmdParser) (chunk : List Char) {i : Nat}
    {ts code : List Char} (hst : p.state = PState.COLLECTING)
    (h : findEndAux p.commandId (p.buffer ++ chunk) = some (i, ts, code)) :
    processOutput p chunk =
      { p with buffer := p.buffer ++ chunk,
               exitCode := some (decToNat code),
               endTimeMs := some (parseTsMs ts),
               output := cleanOutput ((p.buffer ++ chunk).take i),
               state := PState.COMPLETED } := by
  unfold processOutput
  simp [hst, processEnd, h]

/-- Feeding a fresh parser its own START marker line moves it to
COLLECTING, records the timestamp, and empties the buffer (everything
through the end of the marker line is discarded). -/
theorem processOutput_fresh_startLine (cmd U : List Char) {ts : List Char}
    (hts : TsOk ts) (htnl : ∀ c ∈ ts, c ≠ '\n') (hUnl : ∀ c ∈ U, c ≠ '\n') :
    processOutput (CmdParser.fresh cmd U) (startLineOf ts U) =
      { state := PState.COLLECTING, output := [], exitCode := none, command := cmd,
        startTimeMs := some (parseTsMs ts), endTimeMs := none, buffer := [],
        commandId := U } := by
  have hfind : findStartAux U (startLineOf ts U) = some (0, ts) := by
    apply findStartAux_at_zero
    rw [startLineOf_assoc]
    exact matchStartAt_startLine ['\n'] hts
  have hnl : ∀ c ∈ litStart ++ ts ++ '|' :: U, c ≠ '\n' := by
    intro c hc
    rcases List.mem_append.mp hc with hc1 | hc2
    · rcases List.mem_append.mp hc1 with hc3 | hc4
      · exact litStart_no_nl c hc3
      · exact htnl c hc4
    · rcases List.mem_cons.mp hc2 with hc5 | hc6
      · subst hc5; decide
      · exact hUnl c hc6
  have hbuf : afterFirstNlFrom 0 (startLineOf ts U) = [] := by
    rw [startLineOf_line]
    exact afterFirstNl_line hnl []
  simp only [processOutput, CmdParser.fresh, List.nil_append]
  simp only [processStart, hfind, hbuf]
  simp [processEnd, findEndAux]

/-!
Claim theorems.  Each audited claim gets exactly one principal theorem
below, with a witness when the theorem carries hypotheses, and a concrete
counterexample when the claim as frozen fails on the code.
-/

/-- C9.  The `isWaitingForInput` heuristic returns `true` on `"$ "`,
`"Password: "`, `"(y/n) "` and `"Continue? "`, and `false` on
`"normal output\n"`. -/
theorem c9_isWaitingForInput_examples :
    isWaitingForInput (strL ("$ ")) = true ∧
    isWaitingForInput (strL ("Password: ")) = true ∧
    isWaitingForInput (strL ("(y/n) ")) = true ∧
    isWaitingForInput (strL ("Continue? ")) = true ∧
    isWaitingForInput (strL ("normal output\n")) = false := by decide

/-- C1.  Evaluation of the code at the failing input `exit 7`: the
shell-status flow of `wrapCommand` emits the END marker with code 0 (the
assignment `CMD_EXIT_CODE=$?` resets `$?` to 0 before `__mcp_cmd_end`
reads it) even though the wrapped subshell re-raises 7, and feeding the
resulting transcript through the parser and the `executeInSession`
completion handler resolves with `success = true` and no `exitCode` —
where the claim (and the code's own intent of capturing the exit status)
requires `success = false` and `exitCode = 7`; `7 ≠ 0`, so success does
not coincide with the exit status being 0. -/
theorem c1_end_marker_loses_exit_status :
    (runWrappedFlow 7).1.endMarkerCode = some 0 ∧
    (runWrappedFlow 7).2 = 7 ∧
    (execDataEvent
        { id := strL ("s1"), createdAt := 0, lastActivity := 0,
          cwd := strL ("/tmp"), isInteractive := true,
          state := SessionState.RUNNING_COMMAND, initialized := true,
          currentParser := some (CmdParser.fresh (strL ("exit 7")) (strL ("cmd_1_ab"))) }
        false (CmdParser.fresh (strL ("exit 7")) (strL ("cmd_1_ab")))
        (wrappedTranscript 100 101 (strL ("cmd_1_ab")) [] 7)).resolved =
      some { success := true, output := [], exitCode := none, error := none,
             sessionId := some (strL ("s1")), command := strL ("exit 7"),
             isInteractive := some false, waitingForInput := some false,
             duration := some 1000 } ∧
    (7 : Nat) ≠ 0 := by decide

/-- C4.  On an initialized session whose state is not IDLE,
`executeInSession` resolves immediately with the busy result — success
false, an error that spells out the session state — writes nothing to the
pseudoterminal, and leaves state and parser untouched; and of two
back-to-back calls on an initialized IDLE session, the first is accepted
(no immediate result) while the second is rejected busy. -/
theorem c4_busy_rejected (now now2 : Int) (freshId freshId2 : List Char) (s : Session)
    (command command2 : List Char)
    (hinit : s.initialized = true) (hbusy : s.state ≠ SessionState.IDLE) :
    (executeInSessionStart now freshId s command).immediate =
      some (busyResult { s with lastActivity := now } command) ∧
    (busyResult { s with lastActivity := now } command).success = false ∧
    (busyResult { s with lastActivity := now } command).error =
      some (busyMsg s.id s.state) ∧
    containsL (stateName s.state) (busyMsg s.id s.state) = true ∧
    (executeInSessionStart now freshId s command).effects = [] ∧
    (executeInSessionStart now freshId s command).session.state = s.state ∧
    (executeInSessionStart now freshId s command).session.currentParser =
      s.currentParser ∧
    (∀ s0 : Session, s0.initialized = true → s0.state = SessionState.IDLE →
      (executeInSessionStart now freshId s0 command).immediate = none ∧
      (executeInSessionStart now2 freshId2
          (executeInSessionStart now freshId s0 command).session command2).immediate =
        some (busyResult
          { (executeInSessionStart now freshId s0 command).session with
            lastActivity := now2 } command2)) := by
  have hmsg : containsL (stateName s.state) (busyMsg s.id s.state) = true := by
    have h1 := containsL_here (stateName s.state) (strL (")"))
    have h2 := containsL_append_right h1
      ((strL ("Session ") ++ s.id) ++ strL (" is busy ("))
    simpa [busyMsg, List.append_assoc] using h2
  refine ⟨?_, rfl, rfl, hmsg, ?_, ?_, ?_, ?_⟩
  · simp [executeInSessionStart, hinit, hbusy]
  · simp [executeInSessionStart, hinit, hbusy]
  · simp [executeInSessionStart, hinit, hbusy]
  · simp [executeInSessionStart, hinit, hbusy]
  · intro s0 h0i h0s
    constructor
    · simp [executeInSessionStart, h0i, h0s]
    · by_cases hint : isInteractiveCommand command = true
      · simp [executeInSessionStart, h0i, h0s, hint]
      · simp [executeInSessionStart, h0i, h0s, hint]

/-- C4 witness: concrete busy session and back-to-back calls. -/
theorem c4_busy_rejected_witness :
    (executeInSessionStart 5 (strL ("cmd_2_x"))
      { id := strL ("s1"), createdAt := 0, lastActivity := 0, cwd := strL ("/tmp"),
        isInteractive := true, state := SessionState.RUNNING_COMMAND,
        initialized := true, currentParser := none }
      (strL ("echo hi"))).immediate =
      some (busyResult
        { id := strL ("s1"), createdAt := 0, lastActivity := 5, cwd := strL ("/tmp"),
          isInteractive := true, state := SessionState.RUNNING_COMMAND,
          initialized := true, currentParser := none } (strL ("echo hi"))) := by
  have h := c4_busy_rejected 5 6 (strL ("cmd_2_x")) (strL ("cmd_2_y"))
    { id := strL ("s1"), createdAt := 0, lastActivity := 0, cwd := strL ("/tmp"),
      isInteractive := true, state := SessionState.RUNNING_COMMAND,
      initialized := true, currentParser := none }
    (strL ("echo hi")) (strL ("echo ho")) (by decide) (by decide)
  exact h.1

/-- C5.  When the command-timeout timer fires while the in-flight parser
has not completed, the call resolves with success false and the timeout
message (which mentions "timed out"), the session is repaired to IDLE
with its parser discarded, the only pseudoterminal effect is disposing
the data listener — in particular no kill — and a subsequent
`executeInSession` on the repaired session is accepted. -/
theorem c5_timeout_repairs_session (cfg : MCPConfig) (s : Session) (p : CmdParser)
    (command : List Char) (hnc : p.state ≠ PState.COMPLETED) :
    (execTimeoutEvent cfg s p command).resolved =
      some { success := false, output := timeoutMsg cfg, exitCode := none,
             error := some (timeoutMsg cfg), sessionId := some s.id,
             command := command, isInteractive := none, waitingForInput := none,
             duration := none } ∧
    containsL (strL ("timed out")) (timeoutMsg cfg) = true ∧
    (execTimeoutEvent cfg s p command).session.state = SessionState.IDLE ∧
    (execTimeoutEvent cfg s p command).session.currentParser = none ∧
    (execTimeoutEvent cfg s p command).effects = [PtyEffect.dispose] ∧
    PtyEffect.kill ∉ (execTimeoutEvent cfg s p command).effects ∧
    (∀ now2 freshId2 command2, s.initialized = true →
      (executeInSessionStart now2 freshId2
        (execTimeoutEvent cfg s p command).session command2).immediate = none) := by
  have hmsg : containsL (strL ("timed out")) (timeoutMsg cfg) = true := by
    have h1 : containsL (strL ("timed out")) (strL ("Command timed out after ")) = true := by
      decide
    exact containsL_append_left (containsL_append_left h1 _) _
  refine ⟨?_, hmsg, ?_, ?_, ?_, ?_, ?_⟩
  · simp [execTimeoutEvent, hnc]
  · simp [execTimeoutEvent, hnc]
  · simp [execTimeoutEvent, hnc]
  · simp [execTimeoutEvent, hnc]
  · simp [execTimeoutEvent, hnc]
  · intro now2 freshId2 command2 hini
    simp [execTimeoutEvent, hnc, executeInSessionStart, hini]

/-- C5 witness: concrete incomplete parser and timeout firing. -/
theorem c5_timeout_repairs_session_witness :
    (execTimeoutEvent
      { allowedDirectories := [strL ("/tmp")], maxActiveSessions := 5,
        sessionTimeout := 60, commandTimeout := 1 }
      { id := strL ("s1"), createdAt := 0, lastActivity := 0, cwd := strL ("/tmp"),
        isInteractive := true, state := SessionState.RUNNING_COMMAND,
        initialized := true,
        currentParser := some (CmdParser.fresh (strL ("sleep 5")) (strL ("cmd_1_a"))) }
      (CmdParser.fresh (strL ("sleep 5")) (strL ("cmd_1_a")))
      (strL ("sleep 5"))).session.state = SessionState.IDLE := by
  have h := c5_timeout_repairs_session
    { allowedDirectories := [strL ("/tmp")], maxActiveSessions := 5,
      sessionTimeout := 60, commandTimeout := 1 }
    { id := strL ("s1"), createdAt := 0, lastActivity := 0, cwd := strL ("/tmp"),
      isInteractive := true, state := SessionState.RUNNING_COMMAND,
      initialized := true,
      currentParser := some (CmdParser.fresh (strL ("sleep 5")) (strL ("cmd_1_a"))) }
    (CmdParser.fresh (strL ("sleep 5")) (strL ("cmd_1_a")))
    (strL ("sleep 5")) (by decide)
  exact h.2.2.1

/-- C6.  When the allow-list validator rejects the directory,
`createSession` fails immediately: no session object, registry unchanged,
and no pseudoterminal effect at all (in particular no spawn). -/
theorem c6_disallowed_dir_no_spawn (cfg : MCPConfig) (uuid : List Char) (now : Int)
    (registry : List Session) (cwd : List Char) (interactive : Bool)
    (h : isDirectoryAllowed cwd cfg = false) :
    createSessionStart cfg uuid now registry cwd interactive =
      { created := none, registry := registry, effects := [] } ∧
    PtyEffect.spawn ∉ (createSessionStart cfg uuid now registry cwd interactive).effects := by
  constructor
  · simp [createSessionStart, h]
  · simp [createSessionStart, h]

/-- C6 witness: `/etc` against allowed root `/tmp`. -/
theorem c6_disallowed_dir_no_spawn_witness :
    createSessionStart
      { allowedDirectories := [strL ("/tmp")], maxActiveSessions := 5,
        sessionTimeout := 60, commandTimeout := 30 }
      (strL ("u1")) 0 [] (strL ("/etc")) false =
      { created := none, registry := [], effects := [] } :=
  (c6_disallowed_dir_no_spawn
    { allowedDirectories := [strL ("/tmp")], maxActiveSessions := 5,
      sessionTimeout := 60, commandTimeout := 30 }
    (strL ("u1")) 0 [] (strL ("/etc")) false (by decide)).1

/-- C8 (amended).  `lastActivity` is refreshed at the start of
`executeInSession` (for initialized sessions), `sendInput` and
`collectOutputAfterInput`; `cleanupExpiredSessions` evicts only sessions
whose inactivity exceeds the idle timeout; consequently a session whose
operation started no longer than the idle timeout ago survives eviction —
the guarantee is bounded by the idle timeout, not by the operation's
lifetime (see the counterexample for an in-flight eviction beyond that
bound). -/
theorem c8_refresh_and_bounded_eviction :
    (∀ (now : Int) freshId (s : Session) command, s.initialized = true →
      (executeInSessionStart now freshId s command).session.lastActivity = now) ∧
    (∀ (now : Int) (s : Session) input,
      (sendInputCall now s input).1.lastActivity = now) ∧
    (∀ (now : Int) (s : Session) input,
      (collectOutputAfterInputStart now s input).1.lastActivity = now) ∧
    (∀ cfg (now : Int) (reg : List Session) (s : Session), s ∈ reg →
      now - s.lastActivity ≤ (cfg.sessionTimeout : Int) * 1000 →
      s ∈ (cleanupExpiredSessions cfg now reg).1) ∧
    (∀ cfg (now0 now : Int) freshId (s : Session) command (reg : List Session),
      s.initialized = true →
      now - now0 ≤ (cfg.sessionTimeout : Int) * 1000 →
      (executeInSessionStart now0 freshId s command).session ∈ reg →
      (executeInSessionStart now0 freshId s command).session ∈
        (cleanupExpiredSessions cfg now reg).1) := by
  have hrefresh : ∀ (now : Int) freshId (s : Session) command, s.initialized = true →
      (executeInSessionStart now freshId s command).session.lastActivity = now := by
    intro now freshId s command hini
    by_cases hb : s.state = SessionState.IDLE
    · by_cases hint : isInteractiveCommand command = true
      · simp [executeInSessionStart, hini, hb, hint]
      · simp [executeInSessionStart, hini, hb, hint]
    · simp [executeInSessionStart, hini, hb]
  have hstay : ∀ cfg (now : Int) (reg : List Session) (s : Session), s ∈ reg →
      now - s.lastActivity ≤ (cfg.sessionTimeout : Int) * 1000 →
      s ∈ (cleanupExpiredSessions cfg now reg).1 := by
    intro cfg now reg s hmem hle
    have hexp : sessionExpired cfg now s = false := by
      simp [sessionExpired]
      omega
    simp [cleanupExpiredSessions, List.mem_filter, hmem, hexp]
  refine ⟨hrefresh, fun _ _ _ => rfl, fun _ _ _ => rfl, hstay, ?_⟩
  intro cfg now0 now freshId s command reg hini hle hmem
  exact hstay cfg now reg _ hmem (by rw [hrefresh now0 freshId s command hini]; exact hle)

/-- C8 witness: a freshly refreshed session (operation started at 1000 ms,
cleanup at 50000 ms, idle timeout 60 s) survives eviction. -/
theorem c8_refresh_and_bounded_eviction_witness :
    (executeInSessionStart 1000 (strL ("cmd_1_a"))
      { id := strL ("s1"), createdAt := 0, lastActivity := 0, cwd := strL ("/tmp"),
        isInteractive := true, state := SessionState.IDLE, initialized := true,
        currentParser := none } (strL ("echo hi"))).session ∈
      (cleanupExpiredSessions
        { allowedDirectories := [strL ("/tmp")], maxActiveSessions := 5,
          sessionTimeout := 60, commandTimeout := 30 } 50000
        [(executeInSessionStart 1000 (strL ("cmd_1_a"))
          { id := strL ("s1"), createdAt := 0, lastActivity := 0, cwd := strL ("/tmp"),
            isInteractive := true, state := SessionState.IDLE, initialized := true,
            currentParser := none } (strL ("echo hi"))).session]).1 :=
  c8_refresh_and_bounded_eviction.2.2.2.2
    { allowedDirectories := [strL ("/tmp")], maxActiveSessions := 5,
      sessionTimeout := 60, commandTimeout := 30 } 1000 50000 (strL ("cmd_1_a"))
    { id := strL ("s1"), createdAt := 0, lastActivity := 0, cwd := strL ("/tmp"),
      isInteractive := true, state := SessionState.IDLE, initialized := true,
      currentParser := none } (strL ("echo hi")) _ (by decide) (by decide)
    (List.mem_singleton.mpr rfl)

theorem collectInv_init : collectInv collectInit := by
  simp [collectInv, collectInit]

theorem collectInv_step (sid input : List Char) (st : CollectSt) (e : CollectEv)
    (h : collectInv st) : collectInv (collectStep sid input st e) := by
  obtain ⟨h1, h2, h3, h4, h5⟩ := h
  cases e with
  | data c =>
    simp only [collectStep, collectInv]
    split_ifs with hd hcond
    · exact ⟨h1, h2, h3, h4, h5⟩
    · have hrs : st.resultSent = false := by
        rcases Bool.and_eq_true_iff.mp hcond with ⟨_, hr⟩
        simpa using hr
      have hres : st.resolved = [] := (h1 hrs).2
      refine ⟨fun hr => by simp at hr, fun _ => by simp [hres], fun _ => Or.inl rfl,
        by simp [hres], fun hnn => absurd (by simp [hres]) hnn⟩
    · exact ⟨h1, h2, h3, h4, h5⟩
  | settleFires =>
    simp only [collectStep, collectInv]
    split_ifs with hp
    · have hres : st.resolved = [] := h2 hp
      refine ⟨fun hr => ⟨rfl, ?_⟩, fun hpp => by simp at hpp, fun _ => Or.inr ?_,
        ?_, fun _ => rfl⟩
      · exact absurd ((h1 hr).1.symm.trans hp) (by simp)
      · simp [hres]
      · simp [hres]
    · exact ⟨h1, h2, h3, h4, h5⟩
  | timeoutFires =>
    simp only [collectStep, collectInv]
    split_ifs with hr
    · exact ⟨h1, h2, h3, h4, h5⟩
    · have hrs : st.resultSent = false := by simpa using hr
      have hres : st.resolved = [] := (h1 hrs).2
      refine ⟨fun hh => by simp at hh, fun hpp => ?_, fun _ => Or.inr (by simp [hres]),
        by simp [hres], fun _ => rfl⟩
      · exact absurd ((h1 hrs).1.symm.trans hpp) (by simp)

theorem collectInv_foldl (sid input : List Char) (evs : List CollectEv)
    (st : CollectSt) (h : collectInv st) :
    collectInv (evs.foldl (collectStep sid input) st) := by
  induction evs generalizing st with
  | nil => simpa using h
  | cons e rest ih => exact ih _ (collectInv_step sid input st e h)

theorem collectRun_inv (sid input : List Char) (evs : List CollectEv) :
    collectInv (collectRun sid input evs) :=
  collectInv_foldl sid input evs collectInit collectInv_init

theorem collectStep_resultSent_mono (sid input : List Char) (st : CollectSt)
    (e : CollectEv) (h : st.resultSent = true) :
    (collectStep sid input st e).resultSent = true := by
  cases e with
  | data c =>
    simp only [collectStep]
    by_cases hd : st.disposed = true
    · simpa [hd]
    · simp only [Bool.not_eq_true] at hd
      simp [hd, h]
  | settleFires =>
    simp only [collectStep]
    by_cases hp : st.settlePending = true <;> simp [hp, h]
  | timeoutFires => simp [collectStep, h]

theorem collectFoldl_resultSent_mono (sid input : List Char) (evs : List CollectEv)
    (st : CollectSt) (h : st.resultSent = true) :
    (evs.foldl (collectStep sid input) st).resultSent = true := by
  induction evs generalizing st with
  | nil => simpa using h
  | cons e rest ih => exact ih _ (collectStep_resultSent_mono sid input st e h)

theorem collectRun_resultSent_of_timeout (sid input : List Char)
    (evs : List CollectEv) (h : CollectEv.timeoutFires ∈ evs) :
    (collectRun sid input evs).resultSent = true := by
  obtain ⟨l1, l2, rfl⟩ := List.append_of_mem h
  unfold collectRun
  rw [List.foldl_append]
  simp only [List.foldl_cons]
  apply collectFoldl_resultSent_mono
  set st1 := l1.foldl (collectStep sid input) collectInit with hst1
  by_cases hr : st1.resultSent = true
  · exact collectStep_resultSent_mono sid input st1 _ hr
  · simp only [Bool.not_eq_true] at hr
    simp [collectStep, hr]

/-- C10.  Every `collectOutputAfterInput` call delivers exactly one
`ExecutionResult` and disposes its data listener, for every interleaving
of data events, the settle timer and the collection timeout in which the
collection timeout eventually fires and any scheduled settle timer has
fired (the Node timers guarantee both); in particular at most one
resolution is ever delivered, even when the prompt heuristic and the
timeout both fire — the `resultSent` flag serializes the two completion
paths. -/
theorem c10_collect_exactly_once (sid input : List Char) (evs : List CollectEv)
    (htimeout : CollectEv.timeoutFires ∈ evs)
    (hsettled : (collectRun sid input evs).settlePending = false) :
    (collectRun sid input evs).resolved.length = 1 ∧
    (collectRun sid input evs).disposed = true ∧
    (∀ evs2 : List CollectEv, (collectRun sid input evs2).resolved.length ≤ 1) := by
  have hinv := collectRun_inv sid input evs
  obtain ⟨h1, h2, h3, h4, h5⟩ := hinv
  have hrs := collectRun_resultSent_of_timeout sid input evs htimeout
  have hlen : (collectRun sid input evs).resolved.length = 1 := by
    rcases h3 hrs with hpend | hone
    · rw [hsettled] at hpend; exact absurd hpend (by simp)
    · exact hone
  refine ⟨hlen, ?_, fun evs2 => (collectRun_inv sid input evs2).2.2.2.1⟩
  apply h5
  intro hnil
  rw [hnil] at hlen
  simp at hlen

/-- C10 witness: the adversarial interleaving in which the prompt
heuristic fires on `"$ "`, then the collection timeout elapses, then the
settle timer fires — still exactly one resolution, listener disposed. -/
theorem c10_collect_exactly_once_witness :
    (collectRun (strL ("s1")) (strL ("y"))
      [CollectEv.data (strL ("$ ")), CollectEv.timeoutFires,
       CollectEv.settleFires]).resolved.length = 1 ∧
    (collectRun (strL ("s1")) (strL ("y"))
      [CollectEv.data (strL ("$ ")), CollectEv.timeoutFires,
       CollectEv.settleFires]).disposed = true := by
  have h := c10_collect_exactly_once (strL ("s1")) (strL ("y"))
    [CollectEv.data (strL ("$ ")), CollectEv.timeoutFires, CollectEv.settleFires]
    (by decide) (by decide)
  exact ⟨h.1, h.2.1⟩

/-- C3 (amended).  For every command id `U` (over the generated-id
alphabet), exit code `E`, timestamps `t0 ≤ t1` and output text that does
not itself contain an occurrence of the END-marker literal, a fresh
parser fed the START line, the output, and the END line transitions
IDLE → COLLECTING → COLLECTING → COMPLETED and `getResult` returns exactly
the stripped/trimmed output text, exit code `E`, and duration
`(t1 − t0) · 1000` ms (marker timestamps are in seconds, durations in
milliseconds). -/
theorem c3_marker_roundtrip (cmd U out : List Char) (t0 t1 E : Nat)
    (hU : IdOk U) (_ht : t0 ≤ t1)
    (hout : ∀ p, p < out.length →
      isPfx litEnd ((out ++ endLineOf (natToDec t1) U (natToDec E)).drop p) = false) :
    (CmdParser.fresh cmd U).state = PState.IDLE ∧
    (processOutput (CmdParser.fresh cmd U) (startLineOf (natToDec t0) U)).state =
      PState.COLLECTING ∧
    (processOutput (processOutput (CmdParser.fresh cmd U)
        (startLineOf (natToDec t0) U)) out).state = PState.COLLECTING ∧
    (processOutput (processOutput (processOutput (CmdParser.fresh cmd U)
        (startLineOf (natToDec t0) U)) out)
      (endLineOf (natToDec t1) U (natToDec E))).state = PState.COMPLETED ∧
    CmdParser.getResult (processOutput (processOutput (processOutput
        (CmdParser.fresh cmd U) (startLineOf (natToDec t0) U)) out)
      (endLineOf (natToDec t1) U (natToDec E))) =
      { output := cleanOutput out, exitCode := some E, command := cmd,
        duration := some (((t1 : Int) - (t0 : Int)) * 1000) } := by
  have hU_nl := idOk_no_nl hU
  have htnl0 : ∀ c ∈ natToDec t0, c ≠ '\n' :=
    fun c hc => (digitChar_ne (natToDec_digits t0 c hc)).2.2
  have hp1 := processOutput_fresh_startLine cmd U (tsOk_natToDec t0) htnl0 hU_nl
  have hnoendOut : findEndAux U (([] : List Char) ++ out) = none := by
    simp only [List.nil_append]
    apply findEndAux_none
    intro p
    by_cases hlt : p < out.length
    · apply matchEndAt_none_of_noLit
      by_contra hcon
      have htrue : isPfx litEnd (out.drop p) = true := by
        cases hval : isPfx litEnd (out.drop p) with
        | false => exact absurd hval hcon
        | true => rfl
      have hext := isPfx_append htrue (endLineOf (natToDec t1) U (natToDec E))
      have hdrop : (out ++ endLineOf (natToDec t1) U (natToDec E)).drop p =
          out.drop p ++ endLineOf (natToDec t1) U (natToDec E) :=
        List.drop_append_of_le_length (by omega)
      rw [← hdrop] at hext
      exact absurd hext (by simp [hout p hlt])
    · have hnil : out.drop p = [] := List.drop_eq_nil_of_le (by omega)
      rw [hnil]
      rfl
  have hp2 : processOutput
      { state := PState.COLLECTING, output := [], exitCode := none, command := cmd,
        startTimeMs := some (parseTsMs (natToDec t0)), endTimeMs := none,
        buffer := [], commandId := U } out =
      { state := PState.COLLECTING, output := [], exitCode := none, command := cmd,
        startTimeMs := some (parseTsMs (natToDec t0)), endTimeMs := none,
        buffer := ([] : List Char) ++ out, commandId := U } :=
    processOutput_collecting_nomatch _ _ rfl hnoendOut
  have hfind3 : findEndAux U (out ++ endLineOf (natToDec t1) U (natToDec E)) =
      some (out.length, natToDec t1, natToDec E) := by
    apply findEndAux_first
    · intro p hp
      exact matchEndAt_none_of_noLit (hout p hp)
    · rw [endLineOf_assoc]
      exact matchEndAt_endLine [] (tsOk_natToDec t1) (natToDec_ne_nil E)
        (natToDec_digits E)
  have hp3 : processOutput
      { state := PState.COLLECTING, output := [], exitCode := none, command := cmd,
        startTimeMs := some (parseTsMs (natToDec t0)), endTimeMs := none,
        buffer := ([] : List Char) ++ out, commandId := U }
      (endLineOf (natToDec t1) U (natToDec E)) =
      { state := PState.COMPLETED, output := cleanOutput out, exitCode := some E,
        command := cmd, startTimeMs := some (parseTsMs (natToDec t0)),
        endTimeMs := some (parseTsMs (natToDec t1)),
        buffer := out ++ endLineOf (natToDec t1) U (natToDec E), commandId := U } := by
    have h := processOutput_collecting_match
      { state := PState.COLLECTING, output := [], exitCode := none, command := cmd,
        startTimeMs := some (parseTsMs (natToDec t0)), endTimeMs := none,
        buffer := ([] : List Char) ++ out, commandId := U }
      (endLineOf (natToDec t1) U (natToDec E)) rfl
      (by simpa using hfind3)
    rw [h]
    simp [decToNat_natToDec, List.take_left]
  refine ⟨rfl, ?_, ?_, ?_, ?_⟩
  · rw [hp1]
  · rw [hp1, hp2]
  · rw [hp1, hp2, hp3]
  · rw [hp1, hp2, hp3]
    simp [CmdParser.getResult, parseTsMs_natToDec]
    ring

/-- C3 witness: `U = cmd_1_ab`, `t0 = 100`, `t1 = 101`, `E = 5`, output
`"hello\n"`. -/
theorem c3_marker_roundtrip_witness :
    CmdParser.getResult (processOutput (processOutput (processOutput
        (CmdParser.fresh (strL ("echo hello")) (strL ("cmd_1_ab")))
        (startLineOf (natToDec 100) (strL ("cmd_1_ab")))) (strL ("hello\n")))
      (endLineOf (natToDec 101) (strL ("cmd_1_ab")) (natToDec 5))) =
      { output := cleanOutput (strL ("hello\n")), exitCode := some 5,
        command := strL ("echo hello"),
        duration := some ((101 - 100 : Int) * 1000) } := by
  have h := c3_marker_roundtrip (strL ("echo hello")) (strL ("cmd_1_ab"))
    (strL ("hello\n")) 100 101 5 (by constructor <;> decide) (by decide)
    (by decide)
  exact h.2.2.2.2

theorem processOutput_idle_nomatch (p : CmdParser) (chunk : List Char)
    (hst : p.state = PState.IDLE)
    (h : findStartAux p.commandId (p.buffer ++ chunk) = none) :
    processOutput p chunk = { p with buffer := p.buffer ++ chunk } := by
  unfold processOutput processStart
  simp [hst, h]

/-- C2 (amended).  A parser tracking id `U` ignores foreign markers, with
the one exception the unanchored start regex forces: (a) a START marker
carrying `U' ≠ U` leaves an IDLE parser in IDLE provided `U` is not a
proper prefix of `U'`; (b) an END marker carrying any `U2 ≠ U` never
completes a COLLECTING parser — the end pattern's trailing `|` pins the
id exactly — so no foreign marker ever produces a (false) completion. -/
theorem c2_foreign_marker_ignored (cmd U U' : List Char) (t t' E : Nat)
    (hU : IdOk U) (hU' : IdOk U') (hnp : isPfx U U' = false) :
    (processOutput (CmdParser.fresh cmd U) (startLineOf (natToDec t) U')).state =
      PState.IDLE ∧
    (∀ U2 : List Char, IdOk U2 → U2 ≠ U →
      (processOutput (processOutput (CmdParser.fresh cmd U)
          (startLineOf (natToDec t) U))
        (endLineOf (natToDec t') U2 (natToDec E))).state = PState.COLLECTING ∧
      (processOutput (processOutput (CmdParser.fresh cmd U)
          (startLineOf (natToDec t) U))
        (endLineOf (natToDec t') U2 (natToDec E))).exitCode = none) := by
  constructor
  · -- (a) foreign START, U not a prefix of U'
    have hfind : findStartAux U (startLineOf (natToDec t) U') = none := by
      have hM : ∀ c ∈ natToDec t ++ '|' :: (U' ++ ['\n']), c ≠ 'M' := by
        intro c hc
        rcases List.mem_append.mp hc with h1 | h2
        · exact (digitChar_ne (natToDec_digits t c h1)).1
        rcases List.mem_cons.mp h2 with h3 | h4
        · subst h3; decide
        rcases List.mem_append.mp h4 with h5 | h6
        · exact idOk_no_M hU' c h5
        rcases List.mem_cons.mp h6 with h7 | h8
        · subst h7; decide
        · exact absurd h8 (List.not_mem_nil c)
      apply findStartAux_none
      intro p
      match p, Nat.eq_zero_or_pos p with
      | _, Or.inl rfl =>
        simp only [List.drop_zero]
        rw [startLineOf_assoc]
        exact matchStartAt_foreign (tsOk_natToDec t) (idOk_no_nl hU) hnp
      | p, Or.inr hpos =>
        apply matchStartAt_none_of_noLit
        rw [startLineOf_assoc]
        exact litStart_only_at_zero hM p hpos
    have h := processOutput_idle_nomatch (CmdParser.fresh cmd U)
      (startLineOf (natToDec t) U') rfl (by simpa using hfind)
    rw [h]
    rfl
  · -- (b) foreign END on a COLLECTING parser
    intro U2 hU2 hne
    have htnl : ∀ c ∈ natToDec t, c ≠ '\n' :=
      fun c hc => (digitChar_ne (natToDec_digits t c hc)).2.2
    have hp1 := processOutput_fresh_startLine cmd U (tsOk_natToDec t) htnl
      (idOk_no_nl hU)
    have hfind : findEndAux U (endLineOf (natToDec t') U2 (natToDec E)) = none := by
      have hM : ∀ c ∈ natToDec t' ++ '|' :: (U2 ++ '|' :: (natToDec E ++ '\n' :: [])),
          c ≠ 'M' := by
        intro c hc
        rcases List.mem_append.mp hc with h1 | h2
        · exact (digitChar_ne (natToDec_digits t' c h1)).1
        rcases List.mem_cons.mp h2 with h3 | h4
        · subst h3; decide
        rcases List.mem_append.mp h4 with h5 | h6
        · exact idOk_no_M hU2 c h5
        rcases List.mem_cons.mp h6 with h7 | h8
        · subst h7; decide
        rcases List.mem_append.mp h8 with h9 | h10
        · exact (digitChar_ne (natToDec_digits E c h9)).1
        rcases List.mem_cons.mp h10 with h11 | h12
        · subst h11; decide
        · exact absurd h12 (List.not_mem_nil c)
      apply findEndAux_none
      intro p
      match p, Nat.eq_zero_or_pos p with
      | _, Or.inl rfl =>
        simp only [List.drop_zero]
        rw [endLineOf_assoc]
        exact matchEndAt_foreign (tsOk_natToDec t') (idOk_no_pipe hU)
          (idOk_no_pipe hU2) (fun he => hne (he.symm))
      | p, Or.inr hpos =>
        apply matchEndAt_none_of_noLit
        rw [endLineOf_assoc]
        exact litEnd_only_at_zero hM p hpos
    have h2 := processOutput_collecting_nomatch
      { state := PState.COLLECTING, output := [], exitCode := none,
        command := cmd, startTimeMs := some (parseTsMs (natToDec t)),
        endTimeMs := none, buffer := [], commandId := U }
      (endLineOf (natToDec t') U2 (natToDec E)) rfl (by simpa using hfind)
    rw [hp1, h2]
    exact ⟨rfl, rfl⟩

/-- C2 amended-claim witness: `U = cmd_1_a`, foreign `U' = cmd_2_b`
(neither a prefix of the other), foreign END id `cmd_9_z`. -/
theorem c2_foreign_marker_ignored_witness :
    (processOutput (CmdParser.fresh (strL ("ls")) (strL ("cmd_1_a")))
      (startLineOf (natToDec 5) (strL ("cmd_2_b")))).state = PState.IDLE ∧
    (processOutput (processOutput (CmdParser.fresh (strL ("ls")) (strL ("cmd_1_a")))
        (startLineOf (natToDec 5) (strL ("cmd_1_a"))))
      (endLineOf (natToDec 6) (strL ("cmd_9_z")) (natToDec 7))).state =
      PState.COLLECTING := by
  have h := c2_foreign_marker_ignored (strL ("ls")) (strL ("cmd_1_a"))
    (strL ("cmd_2_b")) 5 5 7 (by constructor <;> decide)
    (by constructor <;> decide) (by decide)
  refine ⟨h.1, ?_⟩
  have h3 := c2_foreign_marker_ignored (strL ("ls")) (strL ("cmd_1_a"))
    (strL ("cmd_2_b")) 5 6 7 (by constructor <;> decide)
    (by constructor <;> decide) (by decide)
  exact (h3.2 (strL ("cmd_9_z")) (by constructor <;> decide) (by decide)).1

/-- C2 counterexample.  A parser tracking id `cmd_1_a` fed a START marker
carrying the different id `cmd_1_ab` (of which `cmd_1_a` is a proper
prefix — both ids are producible by the generator) advances from IDLE to
COLLECTING, because the compiled start regex has nothing anchoring the id
on the right.  This falsifies the claim that a marker with any id
`U' ≠ U` never advances the state. -/
theorem c2_counterexample :
    strL ("cmd_1_ab") ≠ strL ("cmd_1_a") ∧
    (CmdParser.fresh (strL ("ls")) (strL ("cmd_1_a"))).state = PState.IDLE ∧
    (processOutput (CmdParser.fresh (strL ("ls")) (strL ("cmd_1_a")))
      (startLineOf (strL ("5")) (strL ("cmd_1_ab")))).state = PState.COLLECTING := by
  decide

/-- C8 counterexample.  A session whose state is RUNNING_COMMAND with an
in-flight parser (an outstanding `executeInSession` operation) and whose
`lastActivity` is 61 s old is closed by `cleanupExpiredSessions` under an
idle timeout of 60 s (command timeout 3600 s, so the operation is still
legitimately outstanding): eviction inspects only `lastActivity`, so a
session IS evicted mid-operation once the operation itself outlives the
idle timeout. -/
theorem c8_counterexample :
    (Session.mk (strL ("s1")) 0 0 (strL ("/tmp")) true
        SessionState.RUNNING_COMMAND true
        (some (CmdParser.fresh (strL ("sleep 120")) (strL ("cmd_1_a"))))).state =
      SessionState.RUNNING_COMMAND ∧
    (Session.mk (strL ("s1")) 0 0 (strL ("/tmp")) true
        SessionState.RUNNING_COMMAND true
        (some (CmdParser.fresh (strL ("sleep 120")) (strL ("cmd_1_a"))))).currentParser ≠
      none ∧
    cleanupExpiredSessions
        { allowedDirectories := [strL ("/tmp")], maxActiveSessions := 5,
          sessionTimeout := 60, commandTimeout := 3600 }
        61000
        [Session.mk (strL ("s1")) 0 0 (strL ("/tmp")) true
          SessionState.RUNNING_COMMAND true
          (some (CmdParser.fresh (strL ("sleep 120")) (strL ("cmd_1_a"))))] =
      (([] : List Session), [PtyEffect.kill]) := by decide

/-- C3 counterexample.  When the command's own output text itself contains
an END marker carrying the parser's id (code field 3), the parser
completes on that embedded marker: after the full claimed sequence with a
genuine END of code 5, `getResult` reports exit code 3 — not the claimed
`E = 5` — and an output differing from the stripped/trimmed output text.
This falsifies the claim's unrestricted quantification over output
texts. -/
theorem c3_counterexample :
    (processOutput
      (processOutput
        (processOutput (CmdParser.fresh (strL ("cat f")) (strL ("cmd_1_ab")))
          (startLineOf (strL ("100")) (strL ("cmd_1_ab"))))
        (strL ("MCP_CMD_END|100|cmd_1_ab|3\n")))
      (endLineOf (strL ("101")) (strL ("cmd_1_ab")) (strL ("5")))).state =
      PState.COMPLETED ∧
    (CmdParser.getResult (processOutput
      (processOutput
        (processOutput (CmdParser.fresh (strL ("cat f")) (strL ("cmd_1_ab")))
          (startLineOf (strL ("100")) (strL ("cmd_1_ab"))))
        (strL ("MCP_CMD_END|100|cmd_1_ab|3\n")))
      (endLineOf (strL ("101")) (strL ("cmd_1_ab")) (strL ("5"))))).exitCode = some 3 ∧
    some 3 ≠ some (5 : Nat) ∧
    (CmdParser.getResult (processOutput
      (processOutput
        (processOutput (CmdParser.fresh (strL ("cat f")) (strL ("cmd_1_ab")))
          (startLineOf (strL ("100")) (strL ("cmd_1_ab"))))
        (strL ("MCP_CMD_END|100|cmd_1_ab|3\n")))
      (endLineOf (strL ("101")) (strL ("cmd_1_ab")) (strL ("5"))))).output ≠
      cleanOutput (strL ("MCP_CMD_END|100|cmd_1_ab|3\n")) := by decide

end BashMcp
